import Mathlib

/-!
# Verification of the basescriptions block-processing pipeline

Shallow embedding of the ethscriptions indexer for the Base L2 chain:
the codec (hex / UTF-8 / SHA-256 / data-URI handling) from
`worker/src/index.ts`, the store materialization functions
(inscriptions, transfers, token notes, collections), the per-block
classifier loop `processBlock`, the checkpointed batch loop in `main`,
and the cron indexer from `indexer-worker/src/index.ts`.

Machine integers do not occur in the source (JS strings, `number` block
heights, and `BigInt` token amounts); the embedding uses `Nat`/`Int`
accordingly, with 32-bit wraparound made explicit (`% 2^32`) inside the
SHA-256 compression function.
-/

namespace Basescriptions

/-! ## Codec: SHA-256 over Nat (faithful to `createHash('sha256')`) -/

/-- 32-bit truncation. -/
def m32 (x : Nat) : Nat := x % 4294967296

/-- 32-bit right rotation. -/
def rotr (n x : Nat) : Nat := m32 ((x >>> n) ||| (x <<< (32 - n)))

/-- SHA-256 small sigma 0. -/
def ssig0 (x : Nat) : Nat := (rotr 7 x) ^^^ (rotr 18 x) ^^^ (x >>> 3)

/-- SHA-256 small sigma 1. -/
def ssig1 (x : Nat) : Nat := (rotr 17 x) ^^^ (rotr 19 x) ^^^ (x >>> 10)

/-- SHA-256 big sigma 0. -/
def bsig0 (x : Nat) : Nat := (rotr 2 x) ^^^ (rotr 13 x) ^^^ (rotr 22 x)

/-- SHA-256 big sigma 1. -/
def bsig1 (x : Nat) : Nat := (rotr 6 x) ^^^ (rotr 11 x) ^^^ (rotr 25 x)

/-- SHA-256 choice function. -/
def chF (x y z : Nat) : Nat := (x &&& y) ^^^ ((x ^^^ 4294967295) &&& z)

/-- SHA-256 majority function. -/
def majF (x y z : Nat) : Nat := (x &&& y) ^^^ (x &&& z) ^^^ (y &&& z)

/-- The 64 SHA-256 round constants (decimal). -/
def sha256K : List Nat :=
  [1116352408, 1899447441, 3049323471, 3921009573, 961987163,
   1508970993, 2453635748, 2870763221, 3624381080, 310598401,
   607225278, 1426881987, 1925078388, 2162078206, 2614888103,
   3248222580, 3835390401, 4022224774, 264347078, 604807628,
   770255983, 1249150122, 1555081692, 1996064986, 2554220882,
   2821834349, 2952996808, 3210313671, 3336571891, 3584528711,
   113926993, 338241895, 666307205, 773529912, 1294757372,
   1396182291, 1695183700, 1986661051, 2177026350, 2456956037,
   2730485921, 2820302411, 3259730800, 3345764771, 3516065817,
   3600352804, 4094571909, 275423344, 430227734, 506948616,
   659060556, 883997877, 958139571, 1322822218, 1537002063,
   1747873779, 1955562222, 2024104815, 2227730452, 2361852424,
   2428436474, 2756734187, 3204031479, 3329325298]

/-- SHA-256 initial hash state (decimal). -/
def sha256H0 : List Nat :=
  [1779033703, 3144134277, 1013904242, 2773480762, 1359893119,
   2600822924, 528734635, 1541459225]

/-- Split a byte list into big-endian 32-bit words (length must be a multiple of 4). -/
def bytesToWords : List Nat → List Nat
  | b0 :: b1 :: b2 :: b3 :: rest =>
      (b0 <<< 24 ||| b1 <<< 16 ||| b2 <<< 8 ||| b3) :: bytesToWords rest
  | _ => []

/-- SHA-256 message padding: append 0x80, zero bytes, and the 64-bit big-endian bit length. -/
def sha256Pad (msg : List Nat) : List Nat :=
  let len := msg.length
  let zeros := (64 - ((len + 9) % 64)) % 64
  let bitLen := len * 8
  msg ++ [0x80] ++ List.replicate zeros 0 ++
    [m32 (bitLen >>> 56) % 256, m32 (bitLen >>> 48) % 256, m32 (bitLen >>> 40) % 256,
     (bitLen >>> 32) % 256, (bitLen >>> 24) % 256, (bitLen >>> 16) % 256,
     (bitLen >>> 8) % 256, bitLen % 256]

/-- Extend 16 message words into the 64-entry SHA-256 message schedule. -/
def sha256Schedule (w16 : List Nat) : List Nat :=
  (List.range 48).foldl
    (fun w _ =>
      let n := w.length
      let x := m32 (ssig1 (w.getD (n - 2) 0) + w.getD (n - 7) 0 +
                    ssig0 (w.getD (n - 15) 0) + w.getD (n - 16) 0)
      w ++ [x])
    w16

/-- One SHA-256 round: update the 8-word working state with constant `k` and word `w`. -/
def sha256Round (st : List Nat) (kw : Nat × Nat) : List Nat :=
  match st with
  | [a, b, c, d, e, f, g, h] =>
      let t1 := m32 (h + bsig1 e + chF e f g + kw.1 + kw.2)
      let t2 := m32 (bsig0 a + majF a b c)
      [m32 (t1 + t2), a, b, c, m32 (d + t1), e, f, g]
  | other => other

/-- Compress one 16-word block into the running 8-word hash state. -/
def sha256Compress (h : List Nat) (block : List Nat) : List Nat :=
  let w := sha256Schedule block
  let st := (sha256K.zip w).foldl sha256Round h
  (h.zip st).map (fun p => m32 (p.1 + p.2))

/-- Split a word list into chunks of 16 (a padded SHA-256 message is always a
whole number of 16-word blocks; a shorter tail cannot occur and is dropped). -/
def chunks16 : List Nat → List (List Nat)
  | w0 :: w1 :: w2 :: w3 :: w4 :: w5 :: w6 :: w7 ::
    w8 :: w9 :: w10 :: w11 :: w12 :: w13 :: w14 :: w15 :: rest =>
      [w0, w1, w2, w3, w4, w5, w6, w7, w8, w9, w10, w11, w12, w13, w14, w15] :: chunks16 rest
  | _ => []

/-- SHA-256 digest of a byte list, as eight 32-bit words. -/
def sha256Words (msg : List Nat) : List Nat :=
  (chunks16 (bytesToWords (sha256Pad msg))).foldl sha256Compress sha256H0

/-- Lowercase hex digit for a nibble. -/
def hexDigit (n : Nat) : Char :=
  if n < 10 then Char.ofNat (48 + n) else Char.ofNat (87 + n)

/-- A 32-bit word as 8 lowercase hex characters. -/
def wordToHex (w : Nat) : List Char :=
  [hexDigit (w >>> 28 % 16), hexDigit (w >>> 24 % 16), hexDigit (w >>> 20 % 16),
   hexDigit (w >>> 16 % 16), hexDigit (w >>> 12 % 16), hexDigit (w >>> 8 % 16),
   hexDigit (w >>> 4 % 16), hexDigit (w % 16)]

/-- UTF-8 encoding of one scalar value, as bytes. -/
def utf8EncodeNat (n : Nat) : List Nat :=
  if n < 0x80 then [n]
  else if n < 0x800 then [0xC0 ||| (n >>> 6), 0x80 ||| (n &&& 0x3F)]
  else if n < 0x10000 then
    [0xE0 ||| (n >>> 12), 0x80 ||| ((n >>> 6) &&& 0x3F), 0x80 ||| (n &&& 0x3F)]
  else
    [0xF0 ||| (n >>> 18), 0x80 ||| ((n >>> 12) &&& 0x3F),
     0x80 ||| ((n >>> 6) &&& 0x3F), 0x80 ||| (n &&& 0x3F)]

/-- UTF-8 bytes of a string (the encoding `createHash(..).update(string)` uses). -/
def utf8Bytes (s : String) : List Nat :=
  s.data.flatMap (fun c => utf8EncodeNat c.toNat)

/-- `sha256` from `worker/src/index.ts`: `'0x' + sha256-hex of the UTF-8 bytes`. -/
def sha256 (content : String) : String :=
  ⟨'0' :: 'x' :: (sha256Words (utf8Bytes content)).flatMap wordToHex⟩

/-! ## Codec: string primitives (JS `String` operations used by the indexer) -/

/-- Is `pat` a prefix of `cs`? (char-list core of JS `startsWith`). -/
def hasPrefixChars : List Char → List Char → Bool
  | _, [] => true
  | [], _ :: _ => false
  | c :: cs, p :: ps => c == p && hasPrefixChars cs ps

/-- JS `String.prototype.startsWith`. -/
def jsStartsWith (s pat : String) : Bool := hasPrefixChars s.data pat.data

/-- Does `pat` occur in `cs` at any position? (core of JS `includes`). -/
def hasInfixChars (cs pat : List Char) : Bool :=
  match cs with
  | [] => hasPrefixChars [] pat
  | c :: rest => hasPrefixChars (c :: rest) pat || hasInfixChars rest pat

/-- JS `String.prototype.includes`. -/
def jsIncludes (s pat : String) : Bool := hasInfixChars s.data pat.data

/-- JS `String.prototype.toLowerCase`, restricted to ASCII (addresses and hex
strings in this code base are ASCII; the Unicode cases never arise). -/
def jsLowerChar (c : Char) : Char :=
  if 65 ≤ c.toNat && c.toNat ≤ 90 then Char.ofNat (c.toNat + 32) else c

/-- JS `toLowerCase` on a string. -/
def jsToLower (s : String) : String := ⟨s.data.map jsLowerChar⟩

/-- Split `cs` at the first character satisfying `p`: returns the prefix of
characters not satisfying `p` and the remainder (which starts with a `p`-char
or is empty). -/
def splitUntil (p : Char → Bool) : List Char → List Char × List Char
  | [] => ([], [])
  | c :: cs =>
      if p c then ([], c :: cs)
      else
        let r := splitUntil p cs
        (c :: r.1, r.2)

/-- Replace the first occurrence of (nonempty) `pat` in `cs` by `rep`
(JS `String.prototype.replace` with a string pattern), with `fuel` bounding
the search. -/
def replaceFirstAux (pat rep : List Char) : Nat → List Char → List Char
  | _, [] => []
  | 0, cs => cs
  | fuel + 1, c :: cs =>
      if hasPrefixChars (c :: cs) pat then rep ++ (c :: cs).drop pat.length
      else c :: replaceFirstAux pat rep fuel cs

/-- JS `replace` with a plain-string pattern: first occurrence only. -/
def jsReplaceFirst (s pat rep : String) : String :=
  if pat.data.isEmpty then ⟨rep.data ++ s.data⟩
  else ⟨replaceFirstAux pat.data rep.data s.data.length s.data⟩

/-! ## Codec: hex and strict UTF-8 (`ethers.getBytes` / `TextDecoder(fatal)`) -/

/-- Value of a hex digit character, if it is one. -/
def hexVal (c : Char) : Option Nat :=
  if 48 ≤ c.toNat && c.toNat ≤ 57 then some (c.toNat - 48)
  else if 97 ≤ c.toNat && c.toNat ≤ 102 then some (c.toNat - 87)
  else if 65 ≤ c.toNat && c.toNat ≤ 70 then some (c.toNat - 55)
  else none

/-- Parse pairs of hex digits into bytes; `none` on a non-hex digit or odd length. -/
def hexPairs : List Char → Option (List Nat)
  | [] => some []
  | [_] => none
  | c1 :: c2 :: cs =>
      match hexVal c1, hexVal c2, hexPairs cs with
      | some h, some l, some rest => some ((h * 16 + l) :: rest)
      | _, _, _ => none

/-- `ethers.getBytes`: strict `0x`-prefixed even-length hex to bytes. -/
def getBytes (hex : String) : Option (List Nat) :=
  match hex.data with
  | '0' :: 'x' :: rest => hexPairs rest
  | _ => none

/-- Is `b` a UTF-8 continuation byte in `[lo, hi]`? -/
def contIn (lo hi b : Nat) : Bool := lo ≤ b && b ≤ hi

/-- Strict UTF-8 decoding (`TextDecoder('utf-8', {fatal:true})`): rejects
overlong forms, surrogates, and out-of-range sequences. `fuel` bounds the
recursion (any value `≥` the list length is enough). -/
def utf8DecodeAux : Nat → List Nat → Option (List Char)
  | _, [] => some []
  | 0, _ :: _ => none
  | fuel + 1, b :: bs =>
      if b < 0x80 then
        (utf8DecodeAux fuel bs).map (Char.ofNat b :: ·)
      else if 0xC2 ≤ b && b ≤ 0xDF then
        match bs with
        | b1 :: bs1 =>
            if contIn 0x80 0xBF b1 then
              (utf8DecodeAux fuel bs1).map (Char.ofNat ((b - 0xC0) <<< 6 ||| (b1 - 0x80)) :: ·)
            else none
        | _ => none
      else if 0xE0 ≤ b && b ≤ 0xEF then
        match bs with
        | b1 :: b2 :: bs2 =>
            let lo1 := if b == 0xE0 then 0xA0 else 0x80
            let hi1 := if b == 0xED then 0x9F else 0xBF
            if contIn lo1 hi1 b1 && contIn 0x80 0xBF b2 then
              (utf8DecodeAux fuel bs2).map
                (Char.ofNat ((b - 0xE0) <<< 12 ||| (b1 - 0x80) <<< 6 ||| (b2 - 0x80)) :: ·)
            else none
        | _ => none
      else if 0xF0 ≤ b && b ≤ 0xF4 then
        match bs with
        | b1 :: b2 :: b3 :: bs3 =>
            let lo1 := if b == 0xF0 then 0x90 else 0x80
            let hi1 := if b == 0xF4 then 0x8F else 0xBF
            if contIn lo1 hi1 b1 && contIn 0x80 0xBF b2 && contIn 0x80 0xBF b3 then
              (utf8DecodeAux fuel bs3).map
                (Char.ofNat ((b - 0xF0) <<< 18 ||| (b1 - 0x80) <<< 12 |||
                             (b2 - 0x80) <<< 6 ||| (b3 - 0x80)) :: ·)
            else none
        | _ => none
      else none

/-- `hexToUtf8` from `worker/src/index.ts`: `null` for empty/`0x` input, then
strict hex-to-bytes followed by strict UTF-8 decoding. -/
def hexToUtf8 (hex : String) : Option String :=
  if hex == "" || hex == "0x" then none
  else
    match getBytes hex with
    | none => none
    | some bytes => (utf8DecodeAux bytes.length bytes).map (⟨·⟩)

/-- `hexToString` from `indexer-worker/src/index.ts`: lenient per-byte
`String.fromCharCode` decode (Latin-1-like, not UTF-8); a non-hex pair
yields `fromCharCode(NaN) = '\0'`. -/
def workerHexToString (hex : String) : String :=
  let clean := if jsStartsWith hex "0x" then hex.data.drop 2 else hex.data
  ⟨(hexPairsLenient clean).map Char.ofNat⟩
where
  /-- Pair up hex chars leniently; a trailing odd digit is its own "pair". -/
  hexPairsLenient : List Char → List Nat
    | [] => []
    | [c] => [(hexVal c).getD 0]
    | c1 :: c2 :: cs =>
        match hexVal c1, hexVal c2 with
        | some h, some l => (h * 16 + l) :: hexPairsLenient cs
        | _, _ => 0 :: hexPairsLenient cs

/-! ## Codec: data-URI handling (`decodeGzipContent`, `hasEsip6Rule`, MIME) -/

/-- The match of the regex `^data:([^;,]*)(;[^,]*)?,(.*)$` (with `/s`):
`(mime, params?, body)` where `params?` keeps its leading `;`. -/
def parseDataUri (s : String) : Option (String × Option String × String) :=
  match s.data with
  | 'd' :: 'a' :: 't' :: 'a' :: ':' :: rest =>
      let mr := splitUntil (fun c => c == ';' || c == ',') rest
      match mr.2 with
      | ',' :: body => some (⟨mr.1⟩, none, ⟨body⟩)
      | ';' :: afterSemi =>
          let pr := splitUntil (fun c => c == ',') afterSemi
          match pr.2 with
          | ',' :: body => some (⟨mr.1⟩, some ⟨';' :: pr.1⟩, ⟨body⟩)
          | _ => none
      | _ => none
  | _ => none

/-- ESIP-7 canonicalization, `decodeGzipContent` from `worker/src/index.ts`.
`inflate` abstracts `gunzipSync` composed with base64 decode/encode of the
body (DEFLATE itself is outside the embedding); `none` models the exception
path, in which the original URI is returned unchanged. -/
def decodeGzipContent (inflate : String → Option String) (dataUri : String) : String :=
  match parseDataUri dataUri with
  | none => dataUri
  | some (mimeType, paramsOpt, body) =>
      match paramsOpt with
      | none => dataUri
      | some params =>
          if jsIncludes params "gzip" then
            if jsIncludes params "base64" then
              match inflate body with
              | some decompressed =>
                  let newParams := jsReplaceFirst (jsReplaceFirst params ";gzip" "") "gzip;" ""
                  "data:" ++ mimeType ++ newParams ++ "," ++ decompressed
              | none => dataUri
            else dataUri
          else dataUri

/-- ESIP-6 opt-in test, `hasEsip6Rule`: the literal substring `rule=esip6`. -/
def hasEsip6Rule (content : String) : Bool := jsIncludes content "rule=esip6"

/-- Content-type extraction: the regex `^data:([^,;]+)` with fallback
`text/plain`. -/
def extractContentType (decodedContent : String) : String :=
  match decodedContent.data with
  | 'd' :: 'a' :: 't' :: 'a' :: ':' :: rest =>
      let mr := splitUntil (fun c => c == ',' || c == ';') rest
      if mr.1.isEmpty then "text/plain" else ⟨mr.1⟩
  | _ => "text/plain"

/-! ## Data model

Rows of the Supabase tables written by the indexer. Timestamps are carried
as opaque ISO strings; `content_uri` is always written as `null` by the
backfill indexer and is omitted. -/

/-- A row of `base_ethscriptions`. -/
structure Inscription where
  id : String
  contentType : String
  creator : String
  currentOwner : String
  creationTx : String
  creationBlock : Nat
  creationTimestamp : String
  createdByContract : Bool
  creatorContract : Option String
  esip6 : Bool
  esip6Sequence : Option Nat
deriving DecidableEq, Repr

/-- A row of `base_transfers` (append-only: the table's only key is a
`SERIAL` surrogate, see `001_base_ethscriptions.sql`). -/
structure TransferRow where
  ethscriptionId : String
  fromAddress : String
  toAddress : String
  txHash : String
  blockNumber : Nat
  timestamp : String
  transferType : String
  logIndex : Option Nat
  contractAddress : Option String
deriving DecidableEq, Repr

/-- A row of `base_tokens`. -/
structure Token where
  tick : String
  maxSupply : Int
  denomination : Int
  minted : Int
  deployEthscriptionId : String
  deployTx : String
  deployer : String
deriving DecidableEq, Repr

/-- A row of `base_token_notes` (also used for `base_bonding_notes`, whose
columns coincide). Modelled from the spec: the SQL for the token tables is
not in the repository; the spec fixes `(tick, note_id)` as the primary key. -/
structure TokenNote where
  tick : String
  noteId : Nat
  ethscriptionId : String
  owner : String
  amount : Int
  mintTx : String
  mintBlock : Nat
deriving DecidableEq, Repr

/-- A row of `base_bonding_tokens`. -/
structure BondingToken where
  tick : String
  maxSupply : Int
  denomination : Int
  basePrice : Int
  priceIncrement : Int
  minted : Int
  reserve : Int
  deployEthscriptionId : String
  deployTx : String
  deployer : String
deriving DecidableEq, Repr

/-- A row of `base_collections`. -/
structure Collection where
  id : String
  name : Option String
  symbol : Option String
  description : Option String
  maxSupply : Option Int
  merkleRoot : Option String
  logoEthscriptionId : Option String
  bannerEthscriptionId : Option String
  owner : String
  locked : Bool
  creationTx : String
  creationBlock : Nat
deriving DecidableEq, Repr

/-- A row of `base_collection_items`. Modelled from the spec: the SQL for the
collection tables is not in the repository; the spec fixes
`(collection_id, item_index)` as the primary key. -/
structure CollectionItem where
  collectionId : String
  itemIndex : Nat
  ethscriptionId : String
  name : Option String
  description : Option String
  backgroundColor : Option String
  attributes : Option String
  addedTx : String
  addedBlock : Nat
deriving DecidableEq, Repr

/-- The relational store the indexer materializes into. -/
structure Store where
  ethscriptions : List Inscription
  transfers : List TransferRow
  tokens : List Token
  tokenNotes : List TokenNote
  bondingTokens : List BondingToken
  bondingNotes : List TokenNote
  collections : List Collection
  collectionItems : List CollectionItem
deriving DecidableEq, Repr

/-- The empty store. -/
def emptyStore : Store := ⟨[], [], [], [], [], [], [], []⟩

/-- The JSON payload of a protocol inscription, with exactly the fields the
handlers read. `JSON.parse` is abstracted (see `processProtocolHandlers`);
an `Option` field is `none` iff the JS value is absent or falsy, so the
`a || b` fallbacks between snake- and camel-case keys are pre-resolved,
except for `amt`, where `some 0` is reachable via the string `"0"` and the
falsiness of `0n` is applied at the use site exactly as in the source.
Numeric fields hold the `BigInt(...)` value. -/
structure ProtoJson where
  p : Option String
  op : Option String
  tick : Option String
  max : Option Int
  lim : Option Int
  amt : Option Int
  basePrice : Option Int
  priceIncrement : Option Int
  name : Option String
  symbol : Option String
  description : Option String
  maxSupply : Option Int
  merkleRoot : Option String
  logo : Option String
  banner : Option String
  collectionId : Option String
  newOwner : Option String
  itemName : Option String
  itemDescription : Option String
  backgroundColor : Option String
  attributes : Option String
  hasItem : Bool
  itemNameSub : Option String
  itemDescriptionSub : Option String
  itemBackgroundColorSub : Option String
  itemAttributesSub : Option String
deriving DecidableEq, Repr

/-- The item fields an `add`-style operation reads off the operation JSON
itself (`itemData.name || itemData.item_name`, etc.). -/
structure ItemFields where
  name : Option String
  description : Option String
  backgroundColor : Option String
  attributes : Option String
deriving DecidableEq, Repr

/-- JS `a || b` on two option-modelled values. -/
def jsOrOpt (a b : Option String) : Option String :=
  match a with
  | some s => some s
  | none => b

/-- The item fields when the operation JSON itself is the item payload. -/
def jsonAsItem (j : ProtoJson) : ItemFields :=
  { name := jsOrOpt j.name j.itemName
    description := jsOrOpt j.description j.itemDescription
    backgroundColor := j.backgroundColor
    attributes := j.attributes }

/-- The item fields of the `item` sub-object (for
`create_collection_and_add_self`). -/
def jsonItemSub (j : ProtoJson) : ItemFields :=
  { name := j.itemNameSub
    description := j.itemDescriptionSub
    backgroundColor := j.itemBackgroundColorSub
    attributes := j.itemAttributesSub }

/-- A transaction as delivered by `getBlock(n, true)`. -/
structure EvmTx where
  hash : String
  txFrom : String
  txTo : Option String
  txData : String
deriving DecidableEq, Repr

/-- An event log as delivered by `getLogs`. `dataStr` is the result of
`abiCoder.decode(['string'], log.data)`, with `none` modelling a decoding
exception (ABI byte-level decoding is abstracted). -/
structure EvmLog where
  address : String
  topics : List String
  dataStr : Option String
  transactionHash : String
  index : Nat
deriving DecidableEq, Repr

/-- A fetched block: transactions, relevant logs, and the ISO timestamp
(`new Date(block.timestamp * 1000).toISOString()` is abstracted into the
carried string). -/
structure EvmBlock where
  timestampIso : String
  txs : List EvmTx
  logs : List EvmLog
deriving DecidableEq, Repr

/-- Modelled: `ethers.id('ethscriptions_protocol_TransferEthscription(address,bytes32)')`.
The keccak-256 digest is abstracted as a tagged constant; only distinctness
and equality dispatch on topic 0 matter. -/
def ESIP1_TOPIC : String := "keccak256:ethscriptions_protocol_TransferEthscription(address,bytes32)"

/-- Modelled: `ethers.id('ethscriptions_protocol_TransferEthscriptionForPreviousOwner(address,address,bytes32)')`. -/
def ESIP2_TOPIC : String := "keccak256:ethscriptions_protocol_TransferEthscriptionForPreviousOwner(address,address,bytes32)"

/-- Modelled: `ethers.id('ethscriptions_protocol_CreateEthscription(address,string)')`. -/
def ESIP3_TOPIC : String := "keccak256:ethscriptions_protocol_CreateEthscription(address,string)"

/-- `ethers.getAddress('0x' + topic.slice(26)).toLowerCase()`: drop the `0x`
and 24 hex chars, validate 40 hex digits (`getAddress` throws otherwise,
which the callers catch), lowercase. -/
def topicToAddress (t : String) : Option String :=
  let hexPart := t.data.drop 26
  if hexPart.length == 40 && hexPart.all (fun c => (hexVal c).isSome) then
    some (jsToLower ⟨'0' :: 'x' :: hexPart⟩)
  else none

/-! ## State materializer -/

/-- Count of `base_ethscriptions` rows with `id = hash`
(`select count .eq('id', hash)`). -/
def countIdEq (s : Store) (hash : String) : Nat :=
  (s.ethscriptions.filter (fun e => e.id == hash)).length

/-- Insert into `base_ethscriptions`; `none` models the primary-key conflict
error on `id`. -/
def insertInscription (s : Store) (row : Inscription) : Option Store :=
  if s.ethscriptions.any (fun e => e.id == row.id) then none
  else some { s with ethscriptions := s.ethscriptions ++ [row] }

/-- `update base_ethscriptions set current_owner where id = ...`. -/
def updateOwner (s : Store) (ethscriptionId newOwner : String) : Store :=
  { s with
    ethscriptions := s.ethscriptions.map
      (fun e => if e.id == ethscriptionId then { e with currentOwner := newOwner } else e) }

/-- `syncTokenNoteOwnership`: mirror a new owner into every fixed-denomination
and bonding-curve note backed by the inscription. -/
def syncTokenNoteOwnership (s : Store) (ethscriptionId newOwner : String) : Store :=
  { s with
    tokenNotes := s.tokenNotes.map
      (fun n => if n.ethscriptionId == ethscriptionId then { n with owner := newOwner } else n)
    bondingNotes := s.bondingNotes.map
      (fun n => if n.ethscriptionId == ethscriptionId then { n with owner := newOwner } else n) }

/-- `processEsip1Transfer`: decode recipient and id from the topics, update the
owner and append an `esip1` transfer row; there is no previous-owner check. -/
def processEsip1Transfer (s : Store) (log : EvmLog) (blockNum : Nat) (timestamp : String) : Store :=
  match log.topics.get? 1, log.topics.get? 2 with
  | some t1, some t2 =>
      match topicToAddress t1 with
      | none => s
      | some recipient =>
          let ethscriptionId := jsToLower t2
          match s.ethscriptions.find? (fun e => e.id == ethscriptionId) with
          | none => s
          | some insc =>
              let fromAddr := insc.currentOwner
              let s1 := updateOwner s ethscriptionId recipient
              let s2 := { s1 with transfers := s1.transfers ++
                [{ ethscriptionId := ethscriptionId, fromAddress := fromAddr,
                   toAddress := recipient, txHash := log.transactionHash,
                   blockNumber := blockNum, timestamp := timestamp,
                   transferType := "esip1", logIndex := some log.index,
                   contractAddress := some (jsToLower log.address) }] }
              syncTokenNoteOwnership s2 ethscriptionId recipient
  | _, _ => s

/-- `processEsip2Transfer`: like ESIP-1 but with a previous-owner topic that
must equal the stored `current_owner`; mismatches are dropped. -/
def processEsip2Transfer (s : Store) (log : EvmLog) (blockNum : Nat) (timestamp : String) : Store :=
  match log.topics.get? 1, log.topics.get? 2, log.topics.get? 3 with
  | some t1, some t2, some t3 =>
      match topicToAddress t1, topicToAddress t2 with
      | some previousOwner, some recipient =>
          let ethscriptionId := jsToLower t3
          match s.ethscriptions.find? (fun e => e.id == ethscriptionId) with
          | none => s
          | some insc =>
              if insc.currentOwner == previousOwner then
                let s1 := updateOwner s ethscriptionId recipient
                let s2 := { s1 with transfers := s1.transfers ++
                  [{ ethscriptionId := ethscriptionId, fromAddress := previousOwner,
                     toAddress := recipient, txHash := log.transactionHash,
                     blockNumber := blockNum, timestamp := timestamp,
                     transferType := "esip2", logIndex := some log.index,
                     contractAddress := some (jsToLower log.address) }] }
                syncTokenNoteOwnership s2 ethscriptionId recipient
              else s
      | _, _ => s
  | _, _, _ => s

/-- `addCollectionItem`: drop if the collection is missing or locked, compute
the next dense `item_index` as `count + 1`, enforce `max_supply` when it is
truthy, insert the item row. -/
def addCollectionItem (s : Store) (collectionId : String) (itemData : ItemFields)
    (ethscriptionId txHash : String) (blockNum : Nat) : Store :=
  match s.collections.find? (fun c => c.id == collectionId) with
  | none => s
  | some collection =>
      if collection.locked then s
      else
        let itemIndex := (s.collectionItems.filter (fun i => i.collectionId == collectionId)).length + 1
        let full := match collection.maxSupply with
          | some m => m != 0 && (itemIndex : Int) > m
          | none => false
        if full then s
        else if s.collectionItems.any (fun i => i.collectionId == collectionId && i.itemIndex == itemIndex) then s
        else
          { s with collectionItems := s.collectionItems ++
            [{ collectionId := collectionId, itemIndex := itemIndex,
               ethscriptionId := ethscriptionId, name := itemData.name,
               description := itemData.description,
               backgroundColor := itemData.backgroundColor,
               attributes := itemData.attributes,
               addedTx := txHash, addedBlock := blockNum }] }

/-- `processCollectionOperation`: dispatch on `op` for the
`erc-721-ethscriptions-collection` protocol. -/
def processCollectionOperation (json : ProtoJson) (ethscriptionId owner txHash : String)
    (blockNum : Nat) (s : Store) : Store :=
  let op := json.op.getD ""
  if op == "create_collection_and_add_self" || op == "create" then
    if s.collections.any (fun c => c.id == ethscriptionId) then s
    else
      let s1 := { s with collections := s.collections ++
        [{ id := ethscriptionId, name := json.name, symbol := json.symbol,
           description := json.description, maxSupply := json.maxSupply,
           merkleRoot := json.merkleRoot, logoEthscriptionId := json.logo,
           bannerEthscriptionId := json.banner, owner := owner, locked := false,
           creationTx := txHash, creationBlock := blockNum }] }
      if op == "create_collection_and_add_self" && json.hasItem then
        addCollectionItem s1 ethscriptionId (jsonItemSub json) ethscriptionId txHash blockNum
      else s1
  else if op == "add_self_to_collection" || op == "add" then
    match json.collectionId with
    | some collectionId => addCollectionItem s collectionId (jsonAsItem json) ethscriptionId txHash blockNum
    | none => s
  else if op == "edit_collection" then
    match json.collectionId with
    | some collectionId =>
        if json.name.isSome || json.symbol.isSome || json.description.isSome then
          { s with collections := s.collections.map (fun c =>
              if c.id == collectionId && c.owner == owner then
                { c with name := jsOrOpt json.name c.name,
                         symbol := jsOrOpt json.symbol c.symbol,
                         description := jsOrOpt json.description c.description }
              else c) }
        else s
    | none => s
  else if op == "lock_collection" then
    match json.collectionId with
    | some collectionId =>
        { s with collections := s.collections.map (fun c =>
            if c.id == collectionId && c.owner == owner then { c with locked := true } else c) }
    | none => s
  else if op == "transfer_ownership" then
    match json.collectionId, json.newOwner with
    | some collectionId, some newOwner =>
        { s with collections := s.collections.map (fun c =>
            if c.id == collectionId && c.owner == owner then
              { c with owner := jsToLower newOwner } else c) }
    | _, _ => s
  else s

/-- `processTokenOperation`: `deploy` and `mint` for the
`erc-20-fixed-denomination` protocol. -/
def processTokenOperation (json : ProtoJson) (ethscriptionId owner txHash : String)
    (blockNum : Nat) (s : Store) : Store :=
  let op := json.op.getD ""
  if op == "deploy" then
    match json.tick with
    | none => s
    | some tick0 =>
        let tick := jsToLower tick0
        let max := json.max.getD 0
        let lim := json.lim.getD 0
        if tick == "" || tick.length > 28 || max ≤ 0 || lim ≤ 0 then s
        else if max % lim != 0 then s
        else if (s.tokens.find? (fun t => t.tick == tick)).isSome then s
        else
          { s with tokens := s.tokens ++
            [{ tick := tick, maxSupply := max, denomination := lim, minted := 0,
               deployEthscriptionId := ethscriptionId, deployTx := txHash,
               deployer := owner }] }
  else if op == "mint" then
    match json.tick with
    | none => s
    | some tick0 =>
        let tick := jsToLower tick0
        if tick == "" then s
        else
          match s.tokens.find? (fun t => t.tick == tick) with
          | none => s
          | some token =>
              let denomination := token.denomination
              let maxSupply := token.maxSupply
              let minted := token.minted
              let mintAmount := match json.amt with
                | some a => if a == 0 then denomination else a
                | none => denomination
              if mintAmount != denomination then s
              else if minted + mintAmount > maxSupply then s
              else
                let noteId := (s.tokenNotes.filter (fun n => n.tick == tick)).length + 1
                if s.tokenNotes.any (fun n => n.tick == tick && n.noteId == noteId) then s
                else
                  let s1 : Store := { s with tokenNotes := s.tokenNotes ++
                    [{ tick := tick, noteId := noteId, ethscriptionId := ethscriptionId,
                       owner := owner, amount := mintAmount, mintTx := txHash,
                       mintBlock := blockNum }] }
                  { s1 with tokens := s1.tokens.map (fun t =>
                      if t.tick == tick then { t with minted := minted + mintAmount } else t) }
  else s

/-- `processBondingCurveOperation`: `deploy` and `mint` for the
`erc-20-bonding-curve` protocol (no divisibility check on deploy, no `amt`
check on mint). -/
def processBondingCurveOperation (json : ProtoJson) (ethscriptionId owner txHash : String)
    (blockNum : Nat) (s : Store) : Store :=
  let op := json.op.getD ""
  if op == "deploy" then
    match json.tick with
    | none => s
    | some tick0 =>
        let tick := jsToLower tick0
        let max := json.max.getD 0
        let lim := json.lim.getD 0
        let basePrice := json.basePrice.getD 0
        let priceIncrement := json.priceIncrement.getD 0
        if tick == "" || tick.length > 28 || max ≤ 0 || lim ≤ 0 || basePrice ≤ 0 then s
        else if s.bondingTokens.any (fun t => t.tick == tick) then s
        else
          { s with bondingTokens := s.bondingTokens ++
            [{ tick := tick, maxSupply := max, denomination := lim,
               basePrice := basePrice, priceIncrement := priceIncrement,
               minted := 0, reserve := 0, deployEthscriptionId := ethscriptionId,
               deployTx := txHash, deployer := owner }] }
  else if op == "mint" then
    match json.tick with
    | none => s
    | some tick0 =>
        let tick := jsToLower tick0
        if tick == "" then s
        else
          match s.bondingTokens.find? (fun t => t.tick == tick) with
          | none => s
          | some token =>
              let denomination := token.denomination
              let maxSupply := token.maxSupply
              let minted := token.minted
              if minted + denomination > maxSupply then s
              else
                let noteId := (s.bondingNotes.filter (fun n => n.tick == tick)).length + 1
                if s.bondingNotes.any (fun n => n.tick == tick && n.noteId == noteId) then s
                else
                  let s1 : Store := { s with bondingNotes := s.bondingNotes ++
                    [{ tick := tick, noteId := noteId, ethscriptionId := ethscriptionId,
                       owner := owner, amount := denomination, mintTx := txHash,
                       mintBlock := blockNum }] }
                  { s1 with bondingTokens := s1.bondingTokens.map (fun t =>
                      if t.tick == tick then { t with minted := minted + denomination } else t) }
  else s

/-- `processProtocolHandlers`: parse the payload (the `parse` parameter
abstracts `parseProtocolJson`, i.e., the data-URI body extraction plus
`JSON.parse`) and dispatch on the protocol tag `p`. -/
def processProtocolHandlers (parse : String → Option ProtoJson) (s : Store)
    (content ethscriptionId owner txHash : String) (blockNum : Nat) : Store :=
  match parse content with
  | none => s
  | some json =>
      match json.p with
      | none => s
      | some protocol =>
          if protocol == "erc-721-ethscriptions-collection" then
            processCollectionOperation json ethscriptionId owner txHash blockNum s
          else if protocol == "erc-20-fixed-denomination" then
            processTokenOperation json ethscriptionId owner txHash blockNum s
          else if protocol == "erc-20-bonding-curve" then
            processBondingCurveOperation json ethscriptionId owner txHash blockNum s
          else s

/-- `processEsip3Creation`: contract-emitted creation. Uniqueness, ESIP-6
sequencing, and protocol dispatch exactly as in the EOA create path, with
`creator = creator_contract = log.address` and `current_owner` from topic 1. -/
def processEsip3Creation (parse : String → Option ProtoJson) (inflate : String → Option String)
    (s : Store) (log : EvmLog) (blockNum : Nat) (timestamp : String) : Store :=
  match log.topics.get? 1 with
  | none => s
  | some t1 =>
      match topicToAddress t1 with
      | none => s
      | some initialOwner =>
          match log.dataStr with
          | none => s
          | some contentUri =>
              if jsStartsWith contentUri "data:" then
                let decodedContent := decodeGzipContent inflate contentUri
                let hash := sha256 decodedContent
                let isEsip6 := hasEsip6Rule contentUri
                if !isEsip6 && (s.ethscriptions.find? (fun e => e.id == hash)).isSome then s
                else
                  let contentType := extractContentType decodedContent
                  let esip6Sequence := if isEsip6 then some (countIdEq s hash + 1) else none
                  let newId := if isEsip6 then hash ++ "-" ++ toString (countIdEq s hash + 1) else hash
                  match insertInscription s
                    { id := newId, contentType := contentType,
                      creator := jsToLower log.address, currentOwner := initialOwner,
                      creationTx := log.transactionHash, creationBlock := blockNum,
                      creationTimestamp := timestamp, createdByContract := true,
                      creatorContract := some (jsToLower log.address),
                      esip6 := isEsip6, esip6Sequence := esip6Sequence } with
                  | none => s
                  | some s1 =>
                      processProtocolHandlers parse s1 decodedContent newId initialOwner
                        log.transactionHash blockNum
              else s

/-! ## Block processor (`processBlock` and the batch loop in `main`) -/

/-- The id an EOA create will use, as computed in `processBlock`:
the content hash, suffixed `-N` with `N = countIdEq + 1` when ESIP-6. -/
def eoaCreateId (s : Store) (hash : String) (isEsip6 : Bool) : String :=
  if isEsip6 then hash ++ "-" ++ toString (countIdEq s hash + 1) else hash

/-- The self-transfer (creation) branch of the transaction loop in
`processBlock`. -/
def processCreateTx (parse : String → Option ProtoJson) (inflate : String → Option String)
    (s : Store) (content fromA txHash : String) (blockNum : Nat) (timestamp : String) : Store :=
  let decodedContent := decodeGzipContent inflate content
  let hash := sha256 decodedContent
  let isEsip6 := hasEsip6Rule content
  let contentType := extractContentType decodedContent
  if !isEsip6 && (s.ethscriptions.find? (fun e => e.id == hash)).isSome then s
  else
    let esip6Sequence := if isEsip6 then some (countIdEq s hash + 1) else none
    let ethscriptionId := eoaCreateId s hash isEsip6
    match insertInscription s
      { id := ethscriptionId, contentType := contentType, creator := fromA,
        currentOwner := fromA, creationTx := txHash, creationBlock := blockNum,
        creationTimestamp := timestamp, createdByContract := false,
        creatorContract := none, esip6 := isEsip6, esip6Sequence := esip6Sequence } with
    | none => s
    | some s1 =>
        processProtocolHandlers parse s1 decodedContent ethscriptionId fromA txHash blockNum

/-- One hash of an ESIP-5 bulk transfer: look up the inscription by id and
current owner, and if found update the owner, append an `eoa` transfer row,
and sync token notes. -/
def processEsip5Hash (s : Store) (hash fromA toA txHash : String)
    (blockNum : Nat) (timestamp : String) : Store :=
  match s.ethscriptions.find? (fun e => e.id == hash && e.currentOwner == fromA) with
  | none => s
  | some _ =>
      let s1 := updateOwner s hash toA
      let s2 := { s1 with transfers := s1.transfers ++
        [{ ethscriptionId := hash, fromAddress := fromA, toAddress := toA,
           txHash := txHash, blockNumber := blockNum, timestamp := timestamp,
           transferType := "eoa", logIndex := none, contractAddress := none }] }
      syncTokenNoteOwnership s2 hash toA

/-- The `i`-th 32-byte hash of an ESIP-5 calldata payload, lowercased:
`('0x' + tx.data.slice(2 + i*64, 2 + (i+1)*64)).toLowerCase()`. -/
def esip5HashAt (txData : String) (i : Nat) : String :=
  jsToLower ⟨'0' :: 'x' :: ((txData.data.drop (2 + i * 64)).take 64)⟩

/-- One transaction of the `processBlock` loop: self-transfer → create,
otherwise calldata of hex length a positive multiple of 64 → bulk transfer,
otherwise ignored. -/
def processTx (parse : String → Option ProtoJson) (inflate : String → Option String)
    (s : Store) (blockNum : Nat) (timestamp : String) (tx : EvmTx) : Store :=
  match tx.txTo with
  | none => s
  | some to0 =>
      let fromA := jsToLower tx.txFrom
      let toA := jsToLower to0
      if fromA == toA then
        match hexToUtf8 tx.txData with
        | none => s
        | some content =>
            if jsStartsWith content "data:" then
              processCreateTx parse inflate s content fromA tx.hash blockNum timestamp
            else s
      else if tx.txData.length ≥ 66 && (tx.txData.length - 2) % 64 == 0 then
        let numHashes := (tx.txData.length - 2) / 64
        (List.range numHashes).foldl
          (fun acc i => processEsip5Hash acc (esip5HashAt tx.txData i) fromA toA tx.hash blockNum timestamp)
          s
      else s

/-- One log of the `processBlock` loop, dispatched on topic 0. -/
def processLog (parse : String → Option ProtoJson) (inflate : String → Option String)
    (s : Store) (blockNum : Nat) (timestamp : String) (log : EvmLog) : Store :=
  match log.topics.get? 0 with
  | none => s
  | some t0 =>
      if t0 == ESIP1_TOPIC then processEsip1Transfer s log blockNum timestamp
      else if t0 == ESIP2_TOPIC then processEsip2Transfer s log blockNum timestamp
      else if t0 == ESIP3_TOPIC then processEsip3Creation parse inflate s log blockNum timestamp
      else s

/-- `processBlock`: all transaction intents in block order, then all log
intents in log order (the returned created/transferred/events counters of the
source are statistics only and are not modelled). -/
def processBlock (parse : String → Option ProtoJson) (inflate : String → Option String)
    (s : Store) (blockNum : Nat) (b : EvmBlock) : Store :=
  let s1 := b.txs.foldl (fun acc tx => processTx parse inflate acc blockNum b.timestampIso tx) s
  b.logs.foldl (fun acc log => processLog parse inflate acc blockNum b.timestampIso log) s1

/-- `processBlock` behind `getBlockWithRetry`: `fetch n = none` models the
block being unavailable after all endpoints and retries, in which case the
source logs `FAILED after retries` and returns zero counts, leaving the
store untouched. -/
def processBlockFetched (parse : String → Option ProtoJson) (inflate : String → Option String)
    (fetch : Nat → Option EvmBlock) (s : Store) (blockNum : Nat) : Store :=
  match fetch blockNum with
  | none => s
  | some b => processBlock parse inflate s blockNum b

/-- `BATCH_SIZE` default. -/
def BATCH_SIZE : Nat := 20

/-- The block numbers of one batch:
`Array.from({length: batchEnd - processed}, (_, i) => processed + i)`. -/
def batchBlockNums (processed batchEnd : Nat) : List Nat :=
  List.range' processed (batchEnd - processed)

/-- One iteration of the inner `while (processed < currentBlock)` loop of
`main`: process the batch `[processed, min(processed + BATCH_SIZE, head))`
block by block, then upsert `indexer_state` to `batchEnd`. The pair is
(store, persisted checkpoint). -/
def runBatch (parse : String → Option ProtoJson) (inflate : String → Option String)
    (fetch : Nat → Option EvmBlock) (st : Store × Nat) (head : Nat) : Store × Nat :=
  let processed := st.2
  let batchEnd := min (processed + BATCH_SIZE) head
  let s' := (batchBlockNums processed batchEnd).foldl
    (fun acc n => processBlockFetched parse inflate fetch acc n) st.1
  (s', batchEnd)

/-! ## Scheduling model for the batch loop

`main` processes each batch in groups of `concurrency = 5`:
`await Promise.all(batch.map(blockNum => processBlock(blockNum)))`. Each
`processBlock` both fetches and applies its block, and suspends at every
RPC and store call, so within one group the per-block application sequences
may interleave arbitrarily; groups themselves are separated by the `await`.
The trace model below captures exactly this: a possible application trace is
the concatenation, group by group, of an arbitrary interleaving of the
per-block intent traces of that group. -/

/-- Fetch/apply concurrency of the batch loop (`const concurrency = 5`). -/
def CONCURRENCY : Nat := 5

/-- `for (let i = 0; i < xs.length; i += 5) xs.slice(i, i + 5)`. -/
def chunks5 {α : Type} : List α → List (List α)
  | a :: b :: c :: d :: e :: f :: rest => [a, b, c, d, e] :: chunks5 (f :: rest)
  | [] => []
  | rest => [rest]

/-- One intent application event: which block, and the index of the intent
within the block's application order (transactions first, then logs). -/
structure ApplyEvent where
  blockNum : Nat
  intentIdx : Nat
deriving DecidableEq, Repr

/-- The per-block application trace: one event per transaction intent and per
log intent, in the order `processBlock` applies them. -/
def blockTrace (blockNum : Nat) (b : EvmBlock) : List ApplyEvent :=
  (List.range (b.txs.length + b.logs.length)).map (fun i => ⟨blockNum, i⟩)

/-- `t` is an interleaving of the lists `ls`: every step removes the head of
one of the lists, and each list's own order is preserved. -/
inductive IsInterleaving {α : Type} : List (List α) → List α → Prop
  | done : ∀ {ls : List (List α)}, (∀ l ∈ ls, l = []) → IsInterleaving ls []
  | step : ∀ {ls : List (List α)} {t : List α} (i : Nat) (x : α) (l : List α),
      ls.get? i = some (x :: l) → IsInterleaving (ls.set i l) t →
      IsInterleaving ls (x :: t)

/-- The fully sequential application trace of a list of numbered blocks. -/
def seqTrace (blocks : List (Nat × EvmBlock)) : List ApplyEvent :=
  (blocks.map (fun p => blockTrace p.1 p.2)).flatten

/-- `t` is a trace the batch loop can produce for `blocks`: groups of 5 run
under `Promise.all` and may interleave internally; groups are sequential. -/
def PossibleTrace (blocks : List (Nat × EvmBlock)) (t : List ApplyEvent) : Prop :=
  ∃ parts : List (List ApplyEvent),
    List.Forall₂ (fun chunk part => IsInterleaving (chunk.map (fun p => blockTrace p.1 p.2)) part)
      (chunks5 blocks) parts ∧
    t = parts.flatten

/-! ## The cron indexer (`indexer-worker/src/index.ts`) -/

/-- Whether the cron indexer treats `tx` as a creation, and if so the id it
assigns: self-transfer, input at least 10 chars of hex including the `0x`,
leniently decoded content starting with `data:`; the id is the SHA-256 of
the **lowercased hex calldata string itself**. -/
def workerCreationId (tx : EvmTx) : Option String :=
  match tx.txTo with
  | none => none
  | some to0 =>
      if jsToLower tx.txFrom != jsToLower to0 then none
      else if tx.txData == "" || tx.txData == "0x" || tx.txData.length < 10 then none
      else if jsStartsWith (workerHexToString tx.txData) "data:" then
        some (sha256 (jsToLower tx.txData))
      else none

/-- Whether the backfill indexer (`worker/src/index.ts`) treats `tx` as a
creation, and if so the id it assigns against store `s`: strict UTF-8 decode,
gzip canonicalization, SHA-256 of the decoded content, ESIP-6 suffixing. -/
def backfillCreationId (inflate : String → Option String) (s : Store) (tx : EvmTx) : Option String :=
  match tx.txTo with
  | none => none
  | some to0 =>
      if jsToLower tx.txFrom != jsToLower to0 then none
      else
        match hexToUtf8 tx.txData with
        | none => none
        | some content =>
            if jsStartsWith content "data:" then
              some (eoaCreateId s (sha256 (decodeGzipContent inflate content)) (hasEsip6Rule content))
            else none

/-! ## Reachability and invariants -/

/-- Stores reachable from the empty store by processing any sequence of
blocks (with fixed JSON-parse and gzip-inflate oracles). -/
inductive Reachable (parse : String → Option ProtoJson) (inflate : String → Option String) :
    Store → Prop
  | empty : Reachable parse inflate emptyStore
  | step : ∀ {s : Store} (blockNum : Nat) (b : EvmBlock),
      Reachable parse inflate s → Reachable parse inflate (processBlock parse inflate s blockNum b)

/-- Sum of the amounts of the notes with a given tick. -/
def tickNotesSum (notes : List TokenNote) (tick : String) : Int :=
  ((notes.filter (fun n => n.tick == tick)).map (fun n => n.amount)).sum

/-- A string with no ASCII uppercase letter (the form `toLowerCase` produces;
the source lowercases addresses but never checks that they are hex, so
hex-ness is inherited from the chain data, not enforced). -/
def NoUpper (s : String) : Prop := ∀ c ∈ s.data, ¬(65 ≤ c.toNat ∧ c.toNat ≤ 90)

/-- All address columns the indexer writes are lowercase. -/
def AddrInv (s : Store) : Prop :=
  (∀ e ∈ s.ethscriptions, NoUpper e.creator ∧ NoUpper e.currentOwner) ∧
  (∀ t ∈ s.transfers, NoUpper t.fromAddress ∧ NoUpper t.toAddress) ∧
  (∀ n ∈ s.tokenNotes, NoUpper n.owner) ∧
  (∀ n ∈ s.bondingNotes, NoUpper n.owner) ∧
  (∀ c ∈ s.collections, NoUpper c.owner)

/-- Well-formedness of the fixed-denomination token tables: ticks are unique,
every note's tick is deployed, and per-tick note sums equal `minted`. -/
def TokensWF (s : Store) : Prop :=
  (s.tokens.map (fun t => t.tick)).Nodup ∧
  (∀ n ∈ s.tokenNotes, ∃ t ∈ s.tokens, t.tick = n.tick) ∧
  (∀ t ∈ s.tokens, tickNotesSum s.tokenNotes t.tick = t.minted)

/-! ## Oracles and concrete fixtures used in the theorems -/

/-- A parse oracle that accepts nothing (no payload is protocol JSON). -/
def nullParse : String → Option ProtoJson := fun _ => none

/-- An inflate oracle on which decompression always fails (the source falls
through to the original URI). -/
def nullInflate : String → Option String := fun _ => none

/-- A block with no transactions and no logs. -/
def plainBlock : EvmBlock := { timestampIso := "1970-01-01T00:00:00.000Z", txs := [], logs := [] }

/-- A fetch oracle on which block 12 is unavailable after all retries. -/
def fetchFail12 : Nat → Option EvmBlock := fun n => if n == 12 then none else some plainBlock

/-- A fetch oracle on which every block is available (and empty). -/
def fetchAll : Nat → Option EvmBlock := fun _ => some plainBlock

/-- The ProtoJson with every field absent. -/
def emptyJson : ProtoJson :=
  { p := none, op := none, tick := none, max := none, lim := none, amt := none,
    basePrice := none, priceIncrement := none, name := none, symbol := none,
    description := none, maxSupply := none, merkleRoot := none, logo := none,
    banner := none, collectionId := none, newOwner := none, itemName := none,
    itemDescription := none, backgroundColor := none, attributes := none,
    hasItem := false, itemNameSub := none, itemDescriptionSub := none,
    itemBackgroundColorSub := none, itemAttributesSub := none }

end Basescriptions

namespace Basescriptions

/-! ## Frame lemmas: which tables each operation leaves untouched -/

theorem addCollectionItem_eths (s : Store) (cid : String) (it : ItemFields)
    (eid txh : String) (bn : Nat) :
    (addCollectionItem s cid it eid txh bn).ethscriptions = s.ethscriptions := by
  unfold addCollectionItem
  repeat' (((try dsimp only []); split) <;> (try rfl))

theorem processCollectionOperation_eths (j : ProtoJson) (eid owner txh : String)
    (bn : Nat) (s : Store) :
    (processCollectionOperation j eid owner txh bn s).ethscriptions = s.ethscriptions := by
  unfold processCollectionOperation
  repeat' (((try dsimp only []); split) <;>
    (try (first | rfl | exact addCollectionItem_eths _ _ _ _ _ _)))

theorem processTokenOperation_eths (j : ProtoJson) (eid owner txh : String)
    (bn : Nat) (s : Store) :
    (processTokenOperation j eid owner txh bn s).ethscriptions = s.ethscriptions := by
  unfold processTokenOperation
  repeat' (((try dsimp only []); split) <;> (try rfl))

theorem processBondingCurveOperation_eths (j : ProtoJson) (eid owner txh : String)
    (bn : Nat) (s : Store) :
    (processBondingCurveOperation j eid owner txh bn s).ethscriptions = s.ethscriptions := by
  unfold processBondingCurveOperation
  repeat' (((try dsimp only []); split) <;> (try rfl))

theorem processProtocolHandlers_eths (parse : String → Option ProtoJson) (s : Store)
    (content eid owner txh : String) (bn : Nat) :
    (processProtocolHandlers parse s content eid owner txh bn).ethscriptions = s.ethscriptions := by
  unfold processProtocolHandlers
  repeat' (((try dsimp only []); split) <;> (try rfl))
  all_goals first
    | exact processCollectionOperation_eths _ _ _ _ _ _
    | exact processTokenOperation_eths _ _ _ _ _ _
    | exact processBondingCurveOperation_eths _ _ _ _ _ _

/-! ## C2: checkpoint vs failed blocks -/

/-- C2 counterexample: in the batch `[10, 30)` against head 100, block 12
fails to fetch, yet the persisted checkpoint after the batch is 30 ≥ 12, and
block 12 is not contained in the next batch, so it is never re-processed —
contradicting the claim that the checkpoint never reaches a failed block. -/
theorem checkpoint_passes_failed_block :
    fetchFail12 12 = none ∧
    12 ∈ batchBlockNums 10 (min (10 + BATCH_SIZE) 100) ∧
    (runBatch nullParse nullInflate fetchFail12 (emptyStore, 10) 100).2 = 30 ∧
    ¬ (runBatch nullParse nullInflate fetchFail12 (emptyStore, 10) 100).2 < 12 ∧
    12 ∉ batchBlockNums (runBatch nullParse nullInflate fetchFail12 (emptyStore, 10) 100).2
        (min ((runBatch nullParse nullInflate fetchFail12 (emptyStore, 10) 100).2 + BATCH_SIZE) 100) := by
  decide

/-- C2 amended: after a batch the persisted checkpoint is always
`min (checkpoint + BATCH_SIZE) head)`, independent of per-block fetch
failures; a failed block of the batch lies strictly below every block of any
subsequent batch and is therefore skipped permanently, not retried. -/
theorem checkpoint_equals_batch_end (parse : String → Option ProtoJson)
    (inflate : String → Option String) (fetch : Nat → Option EvmBlock)
    (s : Store) (c h : Nat) :
    (runBatch parse inflate fetch (s, c) h).2 = min (c + BATCH_SIZE) h ∧
    (∀ b, b ∈ batchBlockNums c (min (c + BATCH_SIZE) h) → fetch b = none →
      ∀ h' b', b' ∈ batchBlockNums (min (c + BATCH_SIZE) h) (min (min (c + BATCH_SIZE) h + BATCH_SIZE) h') →
        b < b') := by
  constructor
  · rfl
  · intro b hb _ h' b' hb'
    simp only [batchBlockNums, List.mem_range'_1] at hb hb'
    omega

/-- C2 amended, witnessed at the concrete failing run. -/
theorem checkpoint_equals_batch_end_witness :
    (runBatch nullParse nullInflate fetchFail12 (emptyStore, 10) 100).2 = min (10 + BATCH_SIZE) 100 ∧
    (∀ b, b ∈ batchBlockNums 10 (min (10 + BATCH_SIZE) 100) → fetchFail12 b = none →
      ∀ h' b', b' ∈ batchBlockNums (min (10 + BATCH_SIZE) 100) (min (min (10 + BATCH_SIZE) 100 + BATCH_SIZE) h') →
        b < b') :=
  checkpoint_equals_batch_end nullParse nullInflate fetchFail12 emptyStore 10 100

/-! ## C6: batch span and checkpoint position -/

/-- C6 counterexample: with checkpoint 10, batch size 20 and head 100, the
batch spans `[10, 29]` (not `[11, 30]`), its last processed block is 29, and
the checkpoint written afterwards is 30, not 29 — contradicting both the
claimed span `[checkpoint+1, min(head, checkpoint+B)]` and the claim that
the checkpoint equals the last processed block. -/
theorem batch_span_off_by_one :
    batchBlockNums 10 (min (10 + BATCH_SIZE) 100) ≠ List.range' 11 20 ∧
    (batchBlockNums 10 (min (10 + BATCH_SIZE) 100)).getLast? = some 29 ∧
    (runBatch nullParse nullInflate fetchAll (emptyStore, 10) 100).2 = 30 ∧
    (runBatch nullParse nullInflate fetchAll (emptyStore, 10) 100).2 ≠ 29 := by
  decide

/-- C6 amended: a batch from checkpoint `c` against head `h > c` spans exactly
the blocks `c ≤ b < min (c + BATCH_SIZE) h`, and the checkpoint persisted
after the batch is `min (c + BATCH_SIZE) h`, which is one more than the last
processed block. -/
theorem batch_span_semantics (parse : String → Option ProtoJson)
    (inflate : String → Option String) (fetch : Nat → Option EvmBlock)
    (s : Store) (c h : Nat) (hch : c < h) :
    (∀ b, b ∈ batchBlockNums c (min (c + BATCH_SIZE) h) ↔ c ≤ b ∧ b < min (c + BATCH_SIZE) h) ∧
    (runBatch parse inflate fetch (s, c) h).2 = min (c + BATCH_SIZE) h ∧
    (batchBlockNums c (min (c + BATCH_SIZE) h)).getLast? =
      some ((runBatch parse inflate fetch (s, c) h).2 - 1) := by
  refine ⟨?_, rfl, ?_⟩
  · intro b
    simp only [batchBlockNums, List.mem_range'_1]
    omega
  · have hlt : c < min (c + BATCH_SIZE) h := by
      simp only [BATCH_SIZE]
      omega
    show (List.range' c (min (c + BATCH_SIZE) h - c)).getLast? = some (min (c + BATCH_SIZE) h - 1)
    have hn : min (c + BATCH_SIZE) h - c = (min (c + BATCH_SIZE) h - c - 1) + 1 := by omega
    rw [hn, List.range'_concat]
    rw [List.getLast?_concat]
    congr 1
    omega

/-- C6 amended, witnessed at checkpoint 10 and head 100. -/
theorem batch_span_semantics_witness :
    10 < 100 ∧
    ((∀ b, b ∈ batchBlockNums 10 (min (10 + BATCH_SIZE) 100) ↔ 10 ≤ b ∧ b < min (10 + BATCH_SIZE) 100) ∧
    (runBatch nullParse nullInflate fetchAll (emptyStore, 10) 100).2 = min (10 + BATCH_SIZE) 100 ∧
    (batchBlockNums 10 (min (10 + BATCH_SIZE) 100)).getLast? =
      some ((runBatch nullParse nullInflate fetchAll (emptyStore, 10) 100).2 - 1)) :=
  ⟨by decide, batch_span_semantics nullParse nullInflate fetchAll emptyStore 10 100 (by decide)⟩

/-! ## C5: fixed-denomination mint -/

/-- A deployed token `bsct` with denomination 100 and max supply 1000. -/
def bsctToken : Token :=
  { tick := "bsct", maxSupply := 1000, denomination := 100, minted := 0,
    deployEthscriptionId := "0xd0", deployTx := "0xdt", deployer := "0xaa" }

/-- A store holding only the `bsct` token. -/
def tokenStore : Store := { emptyStore with tokens := [bsctToken] }

/-- A mint operation carrying `amt = "0"` (present, and different from the
denomination 100). -/
def mintAmtZeroJson : ProtoJson :=
  { emptyJson with
    p := some "erc-20-fixed-denomination"
    op := some "mint"
    tick := some "bsct"
    amt := some 0 }

/-- A mint operation with `amt` absent. -/
def mintNoAmtJson : ProtoJson :=
  { emptyJson with
    p := some "erc-20-fixed-denomination"
    op := some "mint"
    tick := some "bsct" }

/-- C5 counterexample: a mint whose `amt` is present and equal to `0 ≠ lim`
is **not** rejected — `amt || denomination` treats the zero as absent, and a
note of the full denomination 100 is inserted and `minted` incremented —
contradicting the claim that any present `amt ≠ lim` is rejected with no
state change. -/
theorem mint_amt_zero_not_rejected :
    mintAmtZeroJson.amt = some 0 ∧ bsctToken.denomination = 100 ∧
    processTokenOperation mintAmtZeroJson "0xe1" "0xaa" "0xt1" 200 tokenStore ≠ tokenStore ∧
    (processTokenOperation mintAmtZeroJson "0xe1" "0xaa" "0xt1" 200 tokenStore).tokenNotes.map
      (fun n => (n.noteId, n.amount, n.owner)) = [(1, 100, "0xaa")] ∧
    (processTokenOperation mintAmtZeroJson "0xe1" "0xaa" "0xt1" 200 tokenStore).tokens.map
      (fun t => t.minted) = [100] := by
  decide

/-- The corrected mint contract: a present nonzero `amt ≠ lim` is rejected
with no state change; an absent **or zero** `amt` (both JS-falsy) and an
`amt = lim` mint exactly `lim`; a mint that would exceed `max` is rejected;
otherwise a note with the next dense id, `owner = creator` and
`amount = lim` is inserted and `minted` incremented by `lim`. -/
def FixedMintSpec (json : ProtoJson) (ethscriptionId owner txHash : String) (blockNum : Nat)
    (s : Store) (token : Token) (tick : String) : Prop :=
  let res := processTokenOperation json ethscriptionId owner txHash blockNum s
  let cnt := (s.tokenNotes.filter (fun n => n.tick == tick)).length
  (∀ a : Int, json.amt = some a → a ≠ 0 → a ≠ token.denomination → res = s) ∧
  ((json.amt = none ∨ json.amt = some 0 ∨ json.amt = some token.denomination) →
    (token.minted + token.denomination > token.maxSupply → res = s) ∧
    (token.minted + token.denomination ≤ token.maxSupply →
      s.tokenNotes.any (fun n => n.tick == tick && n.noteId == cnt + 1) = false →
      res.tokenNotes = s.tokenNotes ++
        [{ tick := tick, noteId := cnt + 1, ethscriptionId := ethscriptionId,
           owner := owner, amount := token.denomination, mintTx := txHash,
           mintBlock := blockNum }] ∧
      res.tokens = s.tokens.map (fun t =>
        if t.tick == tick then { t with minted := token.minted + token.denomination } else t)))

/-- C5 amended. -/
theorem fixed_mint_semantics (json : ProtoJson) (ethscriptionId owner txHash : String)
    (blockNum : Nat) (s : Store) (token : Token) (tick0 : String)
    (hop : json.op = some "mint") (htick : json.tick = some tick0)
    (hne : (jsToLower tick0 == "") = false)
    (hfind : s.tokens.find? (fun t => t.tick == jsToLower tick0) = some token) :
    FixedMintSpec json ethscriptionId owner txHash blockNum s token (jsToLower tick0) := by
  unfold FixedMintSpec
  dsimp only []
  unfold processTokenOperation
  rw [hop, htick]
  simp only [Option.getD_some]
  rw [show (("mint" : String) == "deploy") = false by decide]
  rw [show (("mint" : String) == "mint") = true by decide]
  simp only [Bool.false_eq_true, if_false, if_true, hne, hfind]
  constructor
  · intro a ha hnz hnd
    rw [ha]
    dsimp only
    simp only [show (a == 0) = false from beq_eq_false_iff_ne.mpr hnz, Bool.false_eq_true,
      if_false, show (a != token.denomination) = true from bne_iff_ne.mpr hnd, if_true]
  · intro hamt
    have hmd : (match json.amt with
        | some a => if (a == 0) = true then token.denomination else a
        | none => token.denomination) = token.denomination := by
      rcases hamt with h | h | h <;> rw [h] <;> simp [ite_self]
    rw [hmd]
    rw [show (token.denomination != token.denomination) = false from bne_self_eq_false _]
    rw [if_neg (show ¬((false : Bool) = true) by simp)]
    constructor
    · intro hover
      rw [if_pos hover]
    · intro hle hfresh
      rw [if_neg (by omega), hfresh]
      rw [if_neg (show ¬((false : Bool) = true) by simp)]
      exact ⟨rfl, rfl⟩

/-- C5 amended, witnessed: an `amt`-less mint of `bsct` on `tokenStore`. -/
theorem fixed_mint_semantics_witness :
    (mintNoAmtJson.op = some "mint" ∧ mintNoAmtJson.tick = some "bsct" ∧
      (jsToLower "bsct" == "") = false ∧
      tokenStore.tokens.find? (fun t => t.tick == jsToLower "bsct") = some bsctToken) ∧
    FixedMintSpec mintNoAmtJson "0xe1" "0xaa" "0xt1" 200 tokenStore bsctToken (jsToLower "bsct") :=
  ⟨⟨by decide, by decide, by decide, by decide⟩,
   fixed_mint_semantics mintNoAmtJson "0xe1" "0xaa" "0xt1" 200 tokenStore bsctToken "bsct"
     (by decide) (by decide) (by decide) (by decide)⟩

/-! ## C1: ESIP-6 sequence numbering -/

/-- An ESIP-6 opt-in payload. -/
def esip6Content : String := "data:,foo;rule=esip6"

/-- The store after one EOA create of `esip6Content` on the empty store. -/
def c1Store : Store :=
  processCreateTx nullParse nullInflate emptyStore esip6Content "0xaa" "0xt1" 100 "T"

/-- An ESIP-3 `CreateEthscription` log carrying the same ESIP-6 payload. -/
def c1Esip3Log : EvmLog :=
  { address := "0xCC",
    topics := [ESIP3_TOPIC,
      "0x000000000000000000000000bbbbbbbbbbbbbbbbbbbbbbbbbbbbbbbbbbbbbbbb"],
    dataStr := some esip6Content, transactionHash := "0xt9", index := 0 }

/-- The number of stored inscriptions whose **base** content hash is `hash`:
rows with id exactly `hash` or with a `hash-K` suffix. This definition follows
the claim's wording (not the source) and is compared against the code's
`countIdEq`-based id below. -/
def claimBaseHashCount (s : Store) (hash : String) : Nat :=
  (s.ethscriptions.filter (fun e => e.id == hash || jsStartsWith e.id (hash ++ "-"))).length

/-- The id the claim predicts for an ESIP-6 create: `hash-N` with
`N = 1 + claimBaseHashCount`. Follows the claim's wording. -/
def claimEsip6Id (s : Store) (hash : String) : String :=
  hash ++ "-" ++ toString (claimBaseHashCount s hash + 1)

/-- C1 counterexample: after one ESIP-6 create of `data:,foo;rule=esip6` the
store holds `hash-1`; for a second identical ESIP-6 create the claim predicts
the id `hash-2` (base-hash count is 1), but the code counts only rows with id
exactly `hash` (count 0), recomputes sequence 1, collides with the stored
`hash-1`, and drops the create entirely — the store is unchanged and no
`hash-2` row ever appears; an ESIP-3 contract create of the same payload is
dropped identically, since `processEsip3Creation` runs the same
`.eq('id', hash)` count. -/
theorem esip6_sequence_counterexample :
    c1Store.ethscriptions.map (fun e => e.id) = [sha256 esip6Content ++ "-1"] ∧
    claimEsip6Id c1Store (sha256 esip6Content) = sha256 esip6Content ++ "-2" ∧
    processCreateTx nullParse nullInflate c1Store esip6Content "0xbb" "0xt2" 101 "T" = c1Store ∧
    processEsip3Creation nullParse nullInflate c1Store c1Esip3Log 101 "T" = c1Store := by
  refine ⟨by decide, by decide, by decide, by decide⟩

/-- The code's actual ESIP-6 id discipline on the EOA create path: the
sequence is `1 + countIdEq s hash`, counting only rows whose id is exactly
`hash` (never the suffixed rows). If the resulting `hash-N` id is free the
row is inserted with that id; if it is already taken, the create is dropped
silently. -/
def Esip6CreateSpec (parse : String → Option ProtoJson) (inflate : String → Option String)
    (s : Store) (content fromA txHash : String) (blockNum : Nat) (ts : String) : Prop :=
  let hash := sha256 (decodeGzipContent inflate content)
  let n := countIdEq s hash + 1
  let newId := hash ++ "-" ++ toString n
  (s.ethscriptions.any (fun e => e.id == newId) = true →
    processCreateTx parse inflate s content fromA txHash blockNum ts = s) ∧
  (s.ethscriptions.any (fun e => e.id == newId) = false →
    (processCreateTx parse inflate s content fromA txHash blockNum ts).ethscriptions =
      s.ethscriptions ++
        [{ id := newId,
           contentType := extractContentType (decodeGzipContent inflate content),
           creator := fromA, currentOwner := fromA, creationTx := txHash,
           creationBlock := blockNum, creationTimestamp := ts,
           createdByContract := false, creatorContract := none,
           esip6 := true, esip6Sequence := some n }])

/-- The code's actual ESIP-6 id discipline on the ESIP-3 contract-create
path: identical to the EOA path — the sequence is `1 + countIdEq s hash`,
counting only rows whose id is exactly `hash`; a free `hash-N` id is inserted
(with `creator = creator_contract = log.address` and the owner from topic 1),
a taken one drops the creation silently. -/
def Esip3Esip6Spec (parse : String → Option ProtoJson) (inflate : String → Option String)
    (s : Store) (log : EvmLog) (initialOwner content : String)
    (blockNum : Nat) (ts : String) : Prop :=
  let hash := sha256 (decodeGzipContent inflate content)
  let n := countIdEq s hash + 1
  let newId := hash ++ "-" ++ toString n
  (s.ethscriptions.any (fun e => e.id == newId) = true →
    processEsip3Creation parse inflate s log blockNum ts = s) ∧
  (s.ethscriptions.any (fun e => e.id == newId) = false →
    (processEsip3Creation parse inflate s log blockNum ts).ethscriptions =
      s.ethscriptions ++
        [{ id := newId,
           contentType := extractContentType (decodeGzipContent inflate content),
           creator := jsToLower log.address, currentOwner := initialOwner,
           creationTx := log.transactionHash, creationBlock := blockNum,
           creationTimestamp := ts, createdByContract := true,
           creatorContract := some (jsToLower log.address),
           esip6 := true, esip6Sequence := some n }])

/-- C1 amended, covering both create paths: every ESIP-6 opt-in Create
intent — an EOA self-transfer create as well as an ESIP-3
`CreateEthscription` log — assigns `hash-N` with `N = 1 + countIdEq`
(counting only rows whose id is exactly `hash`) and silently drops the
create when that id is already taken. -/
theorem esip6_sequence_semantics (parse : String → Option ProtoJson)
    (inflate : String → Option String) (s : Store) (content fromA txHash : String)
    (log : EvmLog) (t1 initialOwner : String) (blockNum : Nat) (ts : String)
    (h6 : hasEsip6Rule content = true)
    (h1 : log.topics.get? 1 = some t1)
    (ha : topicToAddress t1 = some initialOwner)
    (hd : log.dataStr = some content)
    (hdp : jsStartsWith content "data:" = true) :
    Esip6CreateSpec parse inflate s content fromA txHash blockNum ts ∧
    Esip3Esip6Spec parse inflate s log initialOwner content blockNum ts := by
  constructor
  · unfold Esip6CreateSpec
    dsimp only
    unfold processCreateTx eoaCreateId
    rw [h6]
    simp only [Bool.not_true, Bool.false_and, Bool.false_eq_true, if_false, if_true]
    unfold insertInscription
    constructor
    · intro hany
      rw [hany]
      simp
    · intro hany
      rw [hany]
      simp only [Bool.false_eq_true, if_false]
      rw [processProtocolHandlers_eths]
  · unfold Esip3Esip6Spec
    dsimp only
    unfold processEsip3Creation
    rw [h1]
    dsimp only
    rw [ha]
    dsimp only
    rw [hd]
    dsimp only
    rw [hdp, h6]
    simp only [Bool.not_true, Bool.false_and, Bool.false_eq_true, if_false, if_true]
    unfold insertInscription
    constructor
    · intro hany
      rw [hany]
      simp
    · intro hany
      rw [hany]
      simp only [Bool.false_eq_true, if_false]
      rw [processProtocolHandlers_eths]

/-- C1 amended, witnessed on the concrete double-create against both paths. -/
theorem esip6_sequence_semantics_witness :
    (hasEsip6Rule esip6Content = true ∧
     c1Esip3Log.topics.get? 1 =
       some "0x000000000000000000000000bbbbbbbbbbbbbbbbbbbbbbbbbbbbbbbbbbbbbbbb" ∧
     topicToAddress "0x000000000000000000000000bbbbbbbbbbbbbbbbbbbbbbbbbbbbbbbbbbbbbbbb" =
       some "0xbbbbbbbbbbbbbbbbbbbbbbbbbbbbbbbbbbbbbbbb" ∧
     c1Esip3Log.dataStr = some esip6Content ∧
     jsStartsWith esip6Content "data:" = true) ∧
    (Esip6CreateSpec nullParse nullInflate c1Store esip6Content "0xbb" "0xt2" 101 "T" ∧
     Esip3Esip6Spec nullParse nullInflate c1Store c1Esip3Log
       "0xbbbbbbbbbbbbbbbbbbbbbbbbbbbbbbbbbbbbbbbb" esip6Content 101 "T") :=
  ⟨⟨by decide, rfl, by decide, rfl, by decide⟩,
   esip6_sequence_semantics nullParse nullInflate c1Store esip6Content "0xbb" "0xt2"
     c1Esip3Log "0x000000000000000000000000bbbbbbbbbbbbbbbbbbbbbbbbbbbbbbbbbbbbbbbb"
     "0xbbbbbbbbbbbbbbbbbbbbbbbbbbbbbbbbbbbbbbbb" 101 "T"
     (by decide) rfl (by decide) rfl (by decide)⟩

/-! ## C3: idempotence of re-processing -/

/-- A creation transaction for `data:,hello` (calldata is its UTF-8 hex). -/
def helloTx : EvmTx :=
  { hash := "0xt0", txFrom := "0xaa", txTo := some "0xaa",
    txData := "0x646174613a2c68656c6c6f" }

/-- The block holding only `helloTx`. -/
def helloBlock : EvmBlock := { timestampIso := "T1", txs := [helloTx], logs := [] }

/-- The store after processing `helloBlock`. -/
def helloStore : Store := processBlock nullParse nullInflate emptyStore 100 helloBlock

/-- An ESIP-1 transfer log moving the `data:,hello` inscription (topic 2 is
its content hash) to `0xbb...b`. -/
def esip1Log : EvmLog :=
  { address := "0xcc", topics :=
      [ESIP1_TOPIC,
       "0x000000000000000000000000bbbbbbbbbbbbbbbbbbbbbbbbbbbbbbbbbbbbbbbb",
       "0x06c84f230c1ff90bd6aa50ec631cf556ca2a6da0cd6ff07ce61acecd5afb2012"],
    dataStr := none, transactionHash := "0xl1", index := 0 }

/-- The block holding only `esip1Log`. -/
def esip1Block : EvmBlock := { timestampIso := "T2", txs := [], logs := [esip1Log] }

/-- The store after `helloBlock` then `esip1Block`: it contains the effects of
`esip1Block`. -/
def esip1Store : Store := processBlock nullParse nullInflate helloStore 101 esip1Block

/-- C3 counterexample: re-applying `esip1Block` to a reachable store that
already contains its effects appends a second, duplicate Transfer row
(`base_transfers` has no uniqueness constraint and ESIP-1 has no owner
check), so the replay is **not** a zero-change operation. -/
theorem esip1_replay_not_idempotent :
    esip1Store.transfers.length = 1 ∧
    (processBlock nullParse nullInflate esip1Store 101 esip1Block).transfers.length = 2 ∧
    processBlock nullParse nullInflate esip1Store 101 esip1Block ≠ esip1Store := by
  refine ⟨by decide, by decide, by decide⟩

/-- `updateOwner`'s row map is the identity on a list whose matching rows
already carry the new owner. -/
theorem map_owner_id (l : List Inscription) (X r : String)
    (hl : ∀ e ∈ l, e.id = X → e.currentOwner = r) :
    l.map (fun e => if e.id == X then { e with currentOwner := r } else e) = l := by
  have h : l.map (fun e => if e.id == X then { e with currentOwner := r } else e)
      = l.map id := by
    refine List.map_congr_left ?_
    intro e he
    cases hax : (e.id == X) with
    | false => rfl
    | true =>
        have hid : e.id = X := by simpa using hax
        have ho : e.currentOwner = r := hl e he hid
        rw [← ho]
        rfl
  rw [h, List.map_id]

/-- `syncTokenNoteOwnership`'s note map is the identity on a list whose
matching notes already carry the new owner. -/
theorem map_note_owner_id (l : List TokenNote) (X r : String)
    (hl : ∀ n ∈ l, n.ethscriptionId = X → n.owner = r) :
    l.map (fun n => if n.ethscriptionId == X then { n with owner := r } else n) = l := by
  have h : l.map (fun n => if n.ethscriptionId == X then { n with owner := r } else n)
      = l.map id := by
    refine List.map_congr_left ?_
    intro n hn
    cases hax : (n.ethscriptionId == X) with
    | false => rfl
    | true =>
        have hid : n.ethscriptionId = X := by simpa using hax
        have ho : n.owner = r := hl n hn hid
        rw [← ho]
        rfl
  rw [h, List.map_id]

/-- C3 amended: re-applying a block's intents to a store already holding that
block's effects inserts no inscription row — EOA creates and ESIP-3 contract
creates whose target id is stored are absorbed with no change at all — and
EOA/ESIP-5 transfer steps whose owner check no longer matches, as well as
ESIP-2 logs whose previousOwner no longer equals the stored owner, are
dropped with no change; a replayed ESIP-1 log rewrites the already-stored
owner and note-ownership values, changing nothing but `base_transfers`, where
it appends a duplicate Transfer row on every application (the final conjunct:
a fresh row is appended whenever the inscription exists, with no owner
check), so block replay is not a zero-change operation. -/
theorem replay_effects :
    (∀ (parse : String → Option ProtoJson) (inflate : String → Option String)
        (s : Store) (content fromA txHash : String) (blockNum : Nat) (ts : String),
      s.ethscriptions.any (fun e =>
          e.id == eoaCreateId s (sha256 (decodeGzipContent inflate content)) (hasEsip6Rule content)) = true →
      processCreateTx parse inflate s content fromA txHash blockNum ts = s) ∧
    (∀ (parse : String → Option ProtoJson) (inflate : String → Option String)
        (s : Store) (log : EvmLog) (blockNum : Nat) (ts : String) (content : String),
      log.dataStr = some content →
      s.ethscriptions.any (fun e =>
          e.id == eoaCreateId s (sha256 (decodeGzipContent inflate content)) (hasEsip6Rule content)) = true →
      processEsip3Creation parse inflate s log blockNum ts = s) ∧
    (∀ (s : Store) (hash fromA toA txHash : String) (blockNum : Nat) (ts : String),
      s.ethscriptions.find? (fun e => e.id == hash && e.currentOwner == fromA) = none →
      processEsip5Hash s hash fromA toA txHash blockNum ts = s) ∧
    (∀ (s : Store) (log : EvmLog) (blockNum : Nat) (ts : String)
        (t1 t2 t3 prevOwner recipient : String) (insc : Inscription),
      log.topics.get? 1 = some t1 → log.topics.get? 2 = some t2 →
      log.topics.get? 3 = some t3 →
      topicToAddress t1 = some prevOwner → topicToAddress t2 = some recipient →
      s.ethscriptions.find? (fun e => e.id == jsToLower t3) = some insc →
      (insc.currentOwner == prevOwner) = false →
      processEsip2Transfer s log blockNum ts = s) ∧
    (∀ (s : Store) (log : EvmLog) (blockNum : Nat) (ts : String)
        (t1 t2 recipient : String) (insc : Inscription),
      log.topics.get? 1 = some t1 → log.topics.get? 2 = some t2 →
      topicToAddress t1 = some recipient →
      s.ethscriptions.find? (fun e => e.id == jsToLower t2) = some insc →
      (∀ e ∈ s.ethscriptions, e.id = jsToLower t2 → e.currentOwner = recipient) →
      (∀ n ∈ s.tokenNotes, n.ethscriptionId = jsToLower t2 → n.owner = recipient) →
      (∀ n ∈ s.bondingNotes, n.ethscriptionId = jsToLower t2 → n.owner = recipient) →
      processEsip1Transfer s log blockNum ts =
        { s with transfers := s.transfers ++
          [{ ethscriptionId := jsToLower t2, fromAddress := recipient,
             toAddress := recipient, txHash := log.transactionHash,
             blockNumber := blockNum, timestamp := ts, transferType := "esip1",
             logIndex := some log.index,
             contractAddress := some (jsToLower log.address) }] }) ∧
    (∀ (s : Store) (log : EvmLog) (blockNum : Nat) (ts : String)
        (t1 t2 recipient : String) (insc : Inscription),
      log.topics.get? 1 = some t1 → log.topics.get? 2 = some t2 →
      topicToAddress t1 = some recipient →
      s.ethscriptions.find? (fun e => e.id == jsToLower t2) = some insc →
      (processEsip1Transfer s log blockNum ts).transfers = s.transfers ++
        [{ ethscriptionId := jsToLower t2, fromAddress := insc.currentOwner,
           toAddress := recipient, txHash := log.transactionHash,
           blockNumber := blockNum, timestamp := ts, transferType := "esip1",
           logIndex := some log.index,
           contractAddress := some (jsToLower log.address) }]) := by
  refine ⟨?_, ?_, ?_, ?_, ?_, ?_⟩
  · intro parse inflate s content fromA txHash blockNum ts hany
    unfold processCreateTx
    cases h6 : hasEsip6Rule content with
    | true =>
        rw [h6] at hany
        simp only [Bool.not_true, Bool.false_and, Bool.false_eq_true, if_false]
        unfold insertInscription
        rw [hany]
        simp
    | false =>
        rw [h6] at hany
        unfold eoaCreateId at hany
        simp only [Bool.false_eq_true, if_false] at hany
        simp only [Bool.not_false, Bool.true_and]
        rw [show (s.ethscriptions.find? (fun e =>
            e.id == sha256 (decodeGzipContent inflate content))).isSome = true by
          rw [List.find?_isSome]
          rcases List.any_eq_true.mp hany with ⟨e, he, hp⟩
          exact ⟨e, he, hp⟩]
        simp
  · intro parse inflate s log blockNum ts content hd hany
    unfold processEsip3Creation
    cases ht1 : log.topics.get? 1 with
    | none => rfl
    | some t1 =>
        dsimp only
        cases hta : topicToAddress t1 with
        | none => rfl
        | some owner =>
            dsimp only
            rw [hd]
            dsimp only
            cases hds : jsStartsWith content "data:" with
            | false => rfl
            | true =>
                rw [if_pos rfl]
                cases h6 : hasEsip6Rule content with
                | true =>
                    rw [h6] at hany
                    simp only [eoaCreateId, eq_self_iff_true, if_true] at hany
                    simp only [List.any_eq_true, beq_iff_eq] at hany
                    simp only [Bool.not_true, Bool.false_and, Bool.false_eq_true, if_false]
                    unfold insertInscription
                    simp [hany]
                | false =>
                    rw [h6] at hany
                    unfold eoaCreateId at hany
                    simp only [Bool.false_eq_true, if_false] at hany
                    simp only [Bool.not_false, Bool.true_and]
                    rw [show (s.ethscriptions.find? (fun e =>
                        e.id == sha256 (decodeGzipContent inflate content))).isSome = true by
                      rw [List.find?_isSome]
                      rcases List.any_eq_true.mp hany with ⟨e, he, hp⟩
                      exact ⟨e, he, hp⟩]
                    simp
  · intro s hash fromA toA txHash blockNum ts hfind
    unfold processEsip5Hash
    rw [hfind]
  · intro s log blockNum ts t1 t2 t3 prevOwner recipient insc h1 h2 h3 hp hr hfind hown
    unfold processEsip2Transfer
    rw [h1, h2, h3]
    dsimp only
    rw [hp, hr]
    dsimp only
    rw [hfind]
    dsimp only
    rw [hown]
    rfl
  · intro s log blockNum ts t1 t2 recipient insc h1 h2 hrec hfind hE hN hB
    have hio : insc.currentOwner = recipient := by
      refine hE insc (List.mem_of_find?_eq_some hfind) ?_
      simpa using List.find?_some hfind
    unfold processEsip1Transfer
    rw [h1, h2]
    dsimp only
    rw [hrec]
    dsimp only
    rw [hfind]
    dsimp only
    unfold updateOwner syncTokenNoteOwnership
    dsimp only
    rw [map_owner_id s.ethscriptions (jsToLower t2) recipient hE,
        map_note_owner_id s.tokenNotes (jsToLower t2) recipient hN,
        map_note_owner_id s.bondingNotes (jsToLower t2) recipient hB,
        hio]
  · intro s log blockNum ts t1 t2 recipient insc h1 h2 hrec hfind
    unfold processEsip1Transfer
    rw [h1, h2]
    dsimp only
    rw [hrec]
    dsimp only
    rw [hfind]
    rfl

/-! ## C9: id assignment of the cron indexer vs the backfill indexer -/

theorem sha256Round_length (st : List Nat) (kw : Nat × Nat) :
    (sha256Round st kw).length = st.length := by
  unfold sha256Round
  split <;> rfl

theorem sha256Compress_length (h block : List Nat) (hh : h.length = 8) :
    (sha256Compress h block).length = 8 := by
  unfold sha256Compress
  have hst : ∀ (l : List (Nat × Nat)) (st : List Nat),
      (l.foldl sha256Round st).length = st.length := by
    intro l
    induction l with
    | nil => intro st; rfl
    | cons x xs ih => intro st; rw [List.foldl_cons, ih, sha256Round_length]
  simp only [List.length_map, List.length_zip, hst, hh]
  rfl

theorem sha256Words_length (msg : List Nat) : (sha256Words msg).length = 8 := by
  unfold sha256Words
  have : ∀ (cs : List (List Nat)) (h : List Nat), h.length = 8 →
      (cs.foldl sha256Compress h).length = 8 := by
    intro cs
    induction cs with
    | nil => intro h hh; exact hh
    | cons c cs ih => intro h hh; exact ih _ (sha256Compress_length _ _ hh)
  exact this _ _ (by decide)

/-- Every digest the embedded `sha256` produces is `0x` plus 64 hex chars. -/
theorem sha256_length (content : String) : (sha256 content).length = 66 := by
  unfold sha256
  show ('0' :: 'x' :: ((sha256Words (utf8Bytes content)).flatMap wordToHex)).length = 66
  have hfl : ((sha256Words (utf8Bytes content)).flatMap wordToHex).length = 64 := by
    rw [List.length_flatMap]
    have hc : (List.map (List.length ∘ wordToHex) (sha256Words (utf8Bytes content))) =
        List.map (fun _ => 8) (sha256Words (utf8Bytes content)) :=
      List.map_congr_left (fun w _ => rfl)
    rw [hc, List.map_const', sha256Words_length]
    decide
  simp [hfl]

theorem strlen_append (a b : String) : (a ++ b).length = a.length + b.length := by
  show (a.data ++ b.data).length = a.data.length + b.data.length
  exact List.length_append _ _

theorem workerCreationId_eq (tx : EvmTx) (wid : String) (h : workerCreationId tx = some wid) :
    wid = sha256 (jsToLower tx.txData) := by
  unfold workerCreationId at h
  repeat' split at h
  all_goals simp_all

theorem backfillCreationId_eq (inflate : String → Option String) (s : Store) (tx : EvmTx)
    (content bid : String) (hc : hexToUtf8 tx.txData = some content)
    (h : backfillCreationId inflate s tx = some bid) :
    bid = eoaCreateId s (sha256 (decodeGzipContent inflate content)) (hasEsip6Rule content) := by
  unfold backfillCreationId at h
  rw [hc] at h
  repeat' split at h
  all_goals simp_all

/-- C9 counterexample: the self-transfer of `data:,hello` is accepted as a
creation by both indexers, but the cron worker assigns the SHA-256 of the hex
calldata string `0x646174...` while the backfill indexer assigns the SHA-256
of the decoded content `data:,hello` — different ids, refuting the claim that
they assign the same id. -/
theorem worker_backfill_disagree_on_hello :
    workerCreationId helloTx = some (sha256 "0x646174613a2c68656c6c6f") ∧
    backfillCreationId nullInflate emptyStore helloTx = some (sha256 "data:,hello") ∧
    workerCreationId helloTx ≠ backfillCreationId nullInflate emptyStore helloTx := by
  refine ⟨by decide, by decide, by decide⟩

/-- C9 amended: the two indexers hash different preimages — the cron worker
the lowercased hex calldata string, the backfill indexer the UTF-8-decoded,
gzip-canonicalized content with ESIP-6 suffixing — so they agree only when
those SHA-256 digests coincide; for every ESIP-6 opt-in creation accepted by
both, the assigned ids always differ (the backfill id carries a `-N` suffix
and is strictly longer than a bare digest). -/
theorem worker_backfill_id_divergence :
    (∀ (tx : EvmTx) (wid : String), workerCreationId tx = some wid →
      wid = sha256 (jsToLower tx.txData)) ∧
    (∀ (inflate : String → Option String) (s : Store) (tx : EvmTx) (content bid : String),
      hexToUtf8 tx.txData = some content → backfillCreationId inflate s tx = some bid →
      bid = eoaCreateId s (sha256 (decodeGzipContent inflate content)) (hasEsip6Rule content)) ∧
    (∀ (inflate : String → Option String) (s : Store) (tx : EvmTx) (content wid bid : String),
      hexToUtf8 tx.txData = some content → hasEsip6Rule content = true →
      workerCreationId tx = some wid → backfillCreationId inflate s tx = some bid →
      wid ≠ bid) := by
  refine ⟨workerCreationId_eq, backfillCreationId_eq, ?_⟩
  intro inflate s tx content wid bid hc h6 hw hb heq
  have h1 := workerCreationId_eq tx wid hw
  have h2 := backfillCreationId_eq inflate s tx content bid hc hb
  rw [h6] at h2
  unfold eoaCreateId at h2
  simp only [if_true] at h2
  have hlw : wid.length = 66 := by rw [h1]; exact sha256_length _
  have hlb : bid.length = 66 + (1 +
      (toString (countIdEq s (sha256 (decodeGzipContent inflate content)) + 1)).length) := by
    rw [h2, strlen_append, strlen_append, sha256_length,
      show ("-" : String).length = 1 from rfl]
    omega
  rw [heq, hlb] at hlw
  omega

/-! ## C4: transfer validation -/

/-- A list never equals itself with one more element appended. -/
theorem ne_append_singleton {α : Type} (l : List α) (a : α) : l ≠ l ++ [a] := by
  intro h
  have := congrArg List.length h
  simp at this

/-- C4: a Transfer row is written and the owner updated iff the intent's
`from` matches the stored `current_owner`. For EOA/ESIP-5 steps `from` is the
(lowercased) transaction sender and the lookup requires `id` and
`current_owner` to match together; for ESIP-2 the `previousOwner` topic must
equal the stored owner; ESIP-1 has no check — its `from` IS the stored owner.
In every mismatch or missing-inscription case the intent is dropped silently
and the store is left fully unchanged. -/
theorem transfer_validation_semantics :
    (∀ (s : Store) (hash fromA toA txHash : String) (blockNum : Nat) (ts : String),
      ((processEsip5Hash s hash fromA toA txHash blockNum ts).transfers ≠ s.transfers ↔
        ∃ e ∈ s.ethscriptions, e.id = hash ∧ e.currentOwner = fromA) ∧
      (s.ethscriptions.find? (fun e => e.id == hash && e.currentOwner == fromA) = none →
        processEsip5Hash s hash fromA toA txHash blockNum ts = s) ∧
      (∀ e, s.ethscriptions.find? (fun x => x.id == hash && x.currentOwner == fromA) = some e →
        (processEsip5Hash s hash fromA toA txHash blockNum ts).transfers = s.transfers ++
          [{ ethscriptionId := hash, fromAddress := fromA, toAddress := toA,
             txHash := txHash, blockNumber := blockNum, timestamp := ts,
             transferType := "eoa", logIndex := none, contractAddress := none }] ∧
        (processEsip5Hash s hash fromA toA txHash blockNum ts).ethscriptions =
          (updateOwner s hash toA).ethscriptions)) ∧
    (∀ (s : Store) (log : EvmLog) (blockNum : Nat) (ts : String)
        (t1 t2 t3 previousOwner recipient : String),
      log.topics.get? 1 = some t1 → log.topics.get? 2 = some t2 → log.topics.get? 3 = some t3 →
      topicToAddress t1 = some previousOwner → topicToAddress t2 = some recipient →
      (s.ethscriptions.find? (fun e => e.id == jsToLower t3) = none →
        processEsip2Transfer s log blockNum ts = s) ∧
      (∀ insc, s.ethscriptions.find? (fun e => e.id == jsToLower t3) = some insc →
        insc.currentOwner ≠ previousOwner →
        processEsip2Transfer s log blockNum ts = s) ∧
      (∀ insc, s.ethscriptions.find? (fun e => e.id == jsToLower t3) = some insc →
        insc.currentOwner = previousOwner →
        (processEsip2Transfer s log blockNum ts).transfers = s.transfers ++
          [{ ethscriptionId := jsToLower t3, fromAddress := previousOwner,
             toAddress := recipient, txHash := log.transactionHash,
             blockNumber := blockNum, timestamp := ts, transferType := "esip2",
             logIndex := some log.index,
             contractAddress := some (jsToLower log.address) }] ∧
        (processEsip2Transfer s log blockNum ts).ethscriptions =
          (updateOwner s (jsToLower t3) recipient).ethscriptions)) ∧
    (∀ (s : Store) (log : EvmLog) (blockNum : Nat) (ts : String) (t1 t2 recipient : String),
      log.topics.get? 1 = some t1 → log.topics.get? 2 = some t2 →
      topicToAddress t1 = some recipient →
      s.ethscriptions.find? (fun e => e.id == jsToLower t2) = none →
      processEsip1Transfer s log blockNum ts = s) := by
  refine ⟨?_, ?_, ?_⟩
  · intro s hash fromA toA txHash blockNum ts
    have hnone : s.ethscriptions.find? (fun e => e.id == hash && e.currentOwner == fromA) = none →
        processEsip5Hash s hash fromA toA txHash blockNum ts = s := by
      intro hfind
      unfold processEsip5Hash
      rw [hfind]
    have hsome : ∀ e, s.ethscriptions.find? (fun x => x.id == hash && x.currentOwner == fromA) = some e →
        (processEsip5Hash s hash fromA toA txHash blockNum ts).transfers = s.transfers ++
          [{ ethscriptionId := hash, fromAddress := fromA, toAddress := toA,
             txHash := txHash, blockNumber := blockNum, timestamp := ts,
             transferType := "eoa", logIndex := none, contractAddress := none }] ∧
        (processEsip5Hash s hash fromA toA txHash blockNum ts).ethscriptions =
          (updateOwner s hash toA).ethscriptions := by
      intro e hfind
      unfold processEsip5Hash
      rw [hfind]
      exact ⟨rfl, rfl⟩
    refine ⟨?_, hnone, hsome⟩
    constructor
    · intro hne
      cases hfind : s.ethscriptions.find? (fun e => e.id == hash && e.currentOwner == fromA) with
      | none => exact absurd (congrArg Store.transfers (hnone hfind)) hne
      | some e =>
          have hmem := List.mem_of_find?_eq_some hfind
          have hpred := List.find?_some hfind
          simp only [Bool.and_eq_true, beq_iff_eq] at hpred
          exact ⟨e, hmem, hpred.1, hpred.2⟩
    · intro ⟨e, hmem, hid, hown⟩
      have : (s.ethscriptions.find? (fun x => x.id == hash && x.currentOwner == fromA)).isSome := by
        rw [List.find?_isSome]
        exact ⟨e, hmem, by simp [hid, hown]⟩
      cases hfind : s.ethscriptions.find? (fun x => x.id == hash && x.currentOwner == fromA) with
      | none => rw [hfind] at this; simp at this
      | some e' =>
          rw [(hsome e' hfind).1]
          exact fun h => ne_append_singleton _ _ h.symm
  · intro s log blockNum ts t1 t2 t3 previousOwner recipient h1 h2 h3 hprev hrec
    refine ⟨?_, ?_, ?_⟩
    · intro hfind
      unfold processEsip2Transfer
      rw [h1, h2, h3]
      dsimp only
      rw [hprev, hrec]
      dsimp only
      rw [hfind]
    · intro insc hfind hmis
      unfold processEsip2Transfer
      rw [h1, h2, h3]
      dsimp only
      rw [hprev, hrec]
      dsimp only
      rw [hfind]
      dsimp only
      rw [show (insc.currentOwner == previousOwner) = false from beq_eq_false_iff_ne.mpr hmis]
      rfl
    · intro insc hfind hmatch
      unfold processEsip2Transfer
      rw [h1, h2, h3]
      dsimp only
      rw [hprev, hrec]
      dsimp only
      rw [hfind]
      dsimp only
      rw [show (insc.currentOwner == previousOwner) = true from beq_iff_eq.mpr hmatch]
      exact ⟨rfl, rfl⟩
  · intro s log blockNum ts t1 t2 recipient h1 h2 hrec hfind
    unfold processEsip1Transfer
    rw [h1, h2]
    dsimp only
    rw [hrec]
    dsimp only
    rw [hfind]

/-! ## C7: token supply bookkeeping, invariant machinery -/

/-- Folding an invariant-preserving step preserves the invariant. -/
theorem foldl_preserves {α β : Type} (Inv : α → Prop) (f : α → β → α)
    (hf : ∀ a b, Inv a → Inv (f a b)) :
    ∀ (l : List β) (a : α), Inv a → Inv (l.foldl f a) := by
  intro l
  induction l with
  | nil => intro a ha; exact ha
  | cons x xs ih => intro a ha; exact ih _ (hf a x ha)

theorem tickNotesSum_map (notes : List TokenNote) (g : TokenNote → TokenNote)
    (hg : ∀ n, (g n).tick = n.tick ∧ (g n).amount = n.amount) (t : String) :
    tickNotesSum (notes.map g) t = tickNotesSum notes t := by
  unfold tickNotesSum
  induction notes with
  | nil => rfl
  | cons n ns ih =>
      simp only [List.map_cons, List.filter_cons, (hg n).1]
      by_cases hc : (n.tick == t) = true
      · simp only [hc, if_true, List.map_cons, List.sum_cons, (hg n).2, ih]
      · simp only [Bool.not_eq_true] at hc
        simp only [hc, Bool.false_eq_true, if_false, ih]

theorem tickNotesSum_append_single (notes : List TokenNote) (n : TokenNote) (t : String) :
    tickNotesSum (notes ++ [n]) t =
      tickNotesSum notes t + (if n.tick == t then n.amount else 0) := by
  unfold tickNotesSum
  rw [List.filter_append, List.map_append, List.sum_append]
  by_cases hc : (n.tick == t) = true
  · simp [hc]
  · simp only [Bool.not_eq_true] at hc
    simp [hc]

theorem tickNotesSum_eq_zero (notes : List TokenNote) (t : String)
    (h : ∀ n ∈ notes, n.tick ≠ t) : tickNotesSum notes t = 0 := by
  unfold tickNotesSum
  have : notes.filter (fun n => n.tick == t) = [] := by
    rw [List.filter_eq_nil]
    intro n hn
    simp [h n hn]
  rw [this]
  rfl

/-- `TokensWF` only depends on the `tokens` and `tokenNotes` tables. -/
theorem TokensWF_of_frame {s s' : Store} (h1 : s'.tokens = s.tokens)
    (h2 : s'.tokenNotes = s.tokenNotes) (h : TokensWF s) : TokensWF s' := by
  unfold TokensWF at h ⊢
  rw [h1, h2]
  exact h

theorem TokensWF_sync (s : Store) (eid newOwner : String) (h : TokensWF s) :
    TokensWF (syncTokenNoteOwnership s eid newOwner) := by
  obtain ⟨hnd, hnt, hsum⟩ := h
  have hg : ∀ n : TokenNote,
      ((if n.ethscriptionId == eid then { n with owner := newOwner } else n).tick = n.tick ∧
       (if n.ethscriptionId == eid then { n with owner := newOwner } else n).amount = n.amount) := by
    intro n
    by_cases hc : (n.ethscriptionId == eid) = true <;> simp [hc]
  refine ⟨hnd, ?_, ?_⟩
  · intro n hn
    show ∃ t ∈ s.tokens, t.tick = n.tick
    obtain ⟨n0, hn0, rfl⟩ := List.mem_map.mp hn
    obtain ⟨t, ht, htick⟩ := hnt n0 hn0
    exact ⟨t, ht, by rw [htick, (hg n0).1]⟩
  · intro t ht
    show tickNotesSum (s.tokenNotes.map _) t.tick = t.minted
    rw [tickNotesSum_map _ _ hg]
    exact hsum t ht

theorem addCollectionItem_frames (s : Store) (cid : String) (it : ItemFields)
    (eid txh : String) (bn : Nat) :
    (addCollectionItem s cid it eid txh bn).tokens = s.tokens ∧
    (addCollectionItem s cid it eid txh bn).tokenNotes = s.tokenNotes ∧
    (addCollectionItem s cid it eid txh bn).bondingTokens = s.bondingTokens ∧
    (addCollectionItem s cid it eid txh bn).bondingNotes = s.bondingNotes ∧
    (addCollectionItem s cid it eid txh bn).transfers = s.transfers := by
  unfold addCollectionItem
  repeat' (((try dsimp only []); split) <;> (try exact ⟨rfl, rfl, rfl, rfl, rfl⟩))

theorem processCollectionOperation_frames (j : ProtoJson) (eid owner txh : String)
    (bn : Nat) (s : Store) :
    (processCollectionOperation j eid owner txh bn s).tokens = s.tokens ∧
    (processCollectionOperation j eid owner txh bn s).tokenNotes = s.tokenNotes ∧
    (processCollectionOperation j eid owner txh bn s).bondingTokens = s.bondingTokens ∧
    (processCollectionOperation j eid owner txh bn s).bondingNotes = s.bondingNotes ∧
    (processCollectionOperation j eid owner txh bn s).transfers = s.transfers := by
  unfold processCollectionOperation
  repeat' (((try dsimp only []); split) <;> (try exact ⟨rfl, rfl, rfl, rfl, rfl⟩))
  all_goals exact addCollectionItem_frames _ _ _ _ _ _

theorem processBondingCurveOperation_frames (j : ProtoJson) (eid owner txh : String)
    (bn : Nat) (s : Store) :
    (processBondingCurveOperation j eid owner txh bn s).tokens = s.tokens ∧
    (processBondingCurveOperation j eid owner txh bn s).tokenNotes = s.tokenNotes ∧
    (processBondingCurveOperation j eid owner txh bn s).transfers = s.transfers ∧
    (processBondingCurveOperation j eid owner txh bn s).collections = s.collections ∧
    (processBondingCurveOperation j eid owner txh bn s).ethscriptions = s.ethscriptions := by
  unfold processBondingCurveOperation
  repeat' (((try dsimp only []); split) <;> (try exact ⟨rfl, rfl, rfl, rfl, rfl⟩))

theorem processTokenOperation_frames (j : ProtoJson) (eid owner txh : String)
    (bn : Nat) (s : Store) :
    (processTokenOperation j eid owner txh bn s).bondingTokens = s.bondingTokens ∧
    (processTokenOperation j eid owner txh bn s).bondingNotes = s.bondingNotes ∧
    (processTokenOperation j eid owner txh bn s).transfers = s.transfers ∧
    (processTokenOperation j eid owner txh bn s).collections = s.collections := by
  unfold processTokenOperation
  repeat' (((try dsimp only []); split) <;> (try exact ⟨rfl, rfl, rfl, rfl⟩))

theorem insertInscription_some (s : Store) (row : Inscription) (s' : Store)
    (h : insertInscription s row = some s') :
    s' = { s with ethscriptions := s.ethscriptions ++ [row] } := by
  unfold insertInscription at h
  split at h
  · exact absurd h (by simp)
  · exact (Option.some_injective _ h).symm

/-- The deploy action preserves the token well-formedness invariant. -/
theorem TokensWF_deploy_insert (s : Store) (tok : Token)
    (hnd : (s.tokens.map (fun t => t.tick)).Nodup)
    (hnt : ∀ n ∈ s.tokenNotes, ∃ t ∈ s.tokens, t.tick = n.tick)
    (hsum : ∀ t ∈ s.tokens, tickNotesSum s.tokenNotes t.tick = t.minted)
    (hnotin : ∀ t ∈ s.tokens, t.tick ≠ tok.tick) (hzero : tok.minted = 0) :
    TokensWF { s with tokens := s.tokens ++ [tok] } := by
  refine ⟨?_, ?_, ?_⟩
  · show ((s.tokens ++ [tok]).map (fun t => t.tick)).Nodup
    rw [List.map_append, List.nodup_append]
    refine ⟨hnd, by simp, ?_⟩
    intro x hx
    simp only [List.mem_map] at hx
    obtain ⟨t, ht, rfl⟩ := hx
    simp only [List.map_cons, List.map_nil, List.mem_singleton]
    intro hc
    exact hnotin t ht hc
  · intro n hn
    obtain ⟨t, ht, htick⟩ := hnt n hn
    exact ⟨t, List.mem_append_left _ ht, htick⟩
  · intro t ht
    rcases List.mem_append.mp ht with ht' | ht'
    · exact hsum t ht'
    · simp only [List.mem_singleton] at ht'
      subst ht'
      rw [hzero]
      refine tickNotesSum_eq_zero _ _ ?_
      intro n hn hneq
      obtain ⟨t', ht', htick⟩ := hnt n hn
      exact hnotin t' ht' (by rw [htick, hneq])

/-- The mint action (append a note, bump `minted` on the matching tick)
preserves the token well-formedness invariant. -/
theorem TokensWF_mint_insert (s : Store) (token : Token) (tick : String) (m : Int)
    (note : TokenNote)
    (hnd : (s.tokens.map (fun t => t.tick)).Nodup)
    (hnt : ∀ n ∈ s.tokenNotes, ∃ t ∈ s.tokens, t.tick = n.tick)
    (hsum : ∀ t ∈ s.tokens, tickNotesSum s.tokenNotes t.tick = t.minted)
    (htokmem : token ∈ s.tokens) (htick : token.tick = tick)
    (hntick : note.tick = tick) (hnamt : note.amount = m) :
    TokensWF { s with
      tokens := s.tokens.map (fun t =>
        if t.tick == tick then { t with minted := token.minted + m } else t)
      tokenNotes := s.tokenNotes ++ [note] } := by
  have hftick : ∀ t : Token,
      (if (t.tick == tick) = true then { t with minted := token.minted + m } else t).tick
        = t.tick := by
    intro t
    split <;> rfl
  refine ⟨?_, ?_, ?_⟩
  · show ((s.tokens.map (fun t =>
        if t.tick == tick then { t with minted := token.minted + m } else t)).map
        (fun t => t.tick)).Nodup
    rw [List.map_map]
    have hcongr : (s.tokens.map ((fun t : Token => t.tick) ∘ (fun t =>
        if t.tick == tick then { t with minted := token.minted + m } else t)))
        = s.tokens.map (fun t => t.tick) :=
      List.map_congr_left (fun t _ => hftick t)
    rw [hcongr]
    exact hnd
  · intro n hn
    rcases List.mem_append.mp hn with hn' | hn'
    · obtain ⟨t, ht, htick'⟩ := hnt n hn'
      exact ⟨_, List.mem_map_of_mem _ ht, by rw [hftick t]; exact htick'⟩
    · simp only [List.mem_singleton] at hn'
      subst hn'
      refine ⟨_, List.mem_map_of_mem _ htokmem, ?_⟩
      rw [hftick token, htick, hntick]
  · intro t' ht'
    obtain ⟨t, ht, rfl⟩ := List.mem_map.mp ht'
    show tickNotesSum (s.tokenNotes ++ [note]) _ = _
    rw [tickNotesSum_append_single]
    by_cases hc : (t.tick == tick) = true
    · have hteq : t = token := by
        refine List.inj_on_of_nodup_map hnd ht htokmem ?_
        show t.tick = token.tick
        rw [htick]
        exact beq_iff_eq.mp hc
      subst hteq
      rw [hftick t, beq_iff_eq.mp hc]
      have hnote : (note.tick == tick) = true := beq_iff_eq.mpr hntick
      simp only [hc, if_true, hnote, hnamt]
      rw [show tickNotesSum s.tokenNotes tick = t.minted from
        beq_iff_eq.mp hc ▸ hsum t ht]
      simp [hc]
    · rw [hftick t]
      have hnote2 : (note.tick == t.tick) = false := by
        simp only [Bool.not_eq_true] at hc
        rw [beq_eq_false_iff_ne] at hc ⊢
        rw [hntick]
        exact fun h => hc h.symm
      simp only [hnote2, Bool.false_eq_true, if_false, add_zero, hc]
      exact hsum t ht

/-- `processTokenOperation` preserves the token well-formedness invariant. -/
theorem TokensWF_tokenOp (j : ProtoJson) (eid owner txh : String) (bn : Nat)
    (s : Store) (h : TokensWF s) :
    TokensWF (processTokenOperation j eid owner txh bn s) := by
  obtain ⟨hnd, hnt, hsum⟩ := h
  unfold processTokenOperation
  dsimp only
  split
  · -- deploy
    split
    · exact ⟨hnd, hnt, hsum⟩
    · rename_i tick0 heqtick
      split
      · exact ⟨hnd, hnt, hsum⟩
      · split
        · exact ⟨hnd, hnt, hsum⟩
        · split
          · exact ⟨hnd, hnt, hsum⟩
          · rename_i hexist
            refine TokensWF_deploy_insert s _ hnd hnt hsum ?_ rfl
            intro t ht hc
            have : (List.find? (fun t => t.tick == jsToLower tick0) s.tokens).isSome = true := by
              rw [List.find?_isSome]
              exact ⟨t, ht, beq_iff_eq.mpr hc⟩
            exact hexist this
  · split
    · -- mint
      split
      · exact ⟨hnd, hnt, hsum⟩
      · rename_i tick0 heqtick
        split
        · exact ⟨hnd, hnt, hsum⟩
        · split
          · exact ⟨hnd, hnt, hsum⟩
          · rename_i token hfind
            split
            · exact ⟨hnd, hnt, hsum⟩
            · split
              · exact ⟨hnd, hnt, hsum⟩
              · split
                · exact ⟨hnd, hnt, hsum⟩
                · refine TokensWF_mint_insert s token (jsToLower tick0) _ _
                    hnd hnt hsum (List.mem_of_find?_eq_some hfind) ?_ rfl rfl
                  have := List.find?_some hfind
                  simpa using this
    · exact ⟨hnd, hnt, hsum⟩

theorem TokensWF_handlers (parse : String → Option ProtoJson) (s : Store)
    (content eid owner txh : String) (bn : Nat) (h : TokensWF s) :
    TokensWF (processProtocolHandlers parse s content eid owner txh bn) := by
  unfold processProtocolHandlers
  repeat' (((try dsimp only []); split) <;> (try exact h))
  all_goals first
    | exact TokensWF_of_frame (processCollectionOperation_frames _ _ _ _ _ _).1
        (processCollectionOperation_frames _ _ _ _ _ _).2.1 h
    | exact TokensWF_tokenOp _ _ _ _ _ _ h
    | exact TokensWF_of_frame (processBondingCurveOperation_frames _ _ _ _ _ _).1
        (processBondingCurveOperation_frames _ _ _ _ _ _).2.1 h

theorem TokensWF_esip1 (s : Store) (log : EvmLog) (bn : Nat) (ts : String)
    (h : TokensWF s) : TokensWF (processEsip1Transfer s log bn ts) := by
  unfold processEsip1Transfer
  repeat' (((try dsimp only []); split) <;> (try exact h))
  all_goals exact TokensWF_sync _ _ _ (TokensWF_of_frame rfl rfl h)

theorem TokensWF_esip2 (s : Store) (log : EvmLog) (bn : Nat) (ts : String)
    (h : TokensWF s) : TokensWF (processEsip2Transfer s log bn ts) := by
  unfold processEsip2Transfer
  repeat' (((try dsimp only []); split) <;> (try exact h))
  all_goals exact TokensWF_sync _ _ _ (TokensWF_of_frame rfl rfl h)

theorem TokensWF_esip5Hash (s : Store) (hash fromA toA txh : String) (bn : Nat)
    (ts : String) (h : TokensWF s) : TokensWF (processEsip5Hash s hash fromA toA txh bn ts) := by
  unfold processEsip5Hash
  repeat' (((try dsimp only []); split) <;> (try exact h))
  all_goals exact TokensWF_sync _ _ _ (TokensWF_of_frame rfl rfl h)

/-- The insert-then-dispatch tail common to both create paths preserves the
token invariant. -/
theorem TokensWF_insertMatch (parse : String → Option ProtoJson) (s : Store)
    (row : Inscription) (content eid owner txh : String) (bn : Nat) (h : TokensWF s) :
    TokensWF (match insertInscription s row with
      | none => s
      | some s1 => processProtocolHandlers parse s1 content eid owner txh bn) := by
  cases hins : insertInscription s row with
  | none => exact h
  | some s1 =>
      have hs1 := insertInscription_some _ _ _ hins
      subst hs1
      exact TokensWF_handlers _ _ _ _ _ _ _ (TokensWF_of_frame rfl rfl h)

theorem TokensWF_esip3 (parse : String → Option ProtoJson) (inflate : String → Option String)
    (s : Store) (log : EvmLog) (bn : Nat) (ts : String) (h : TokensWF s) :
    TokensWF (processEsip3Creation parse inflate s log bn ts) := by
  unfold processEsip3Creation
  cases hg1 : log.topics.get? 1 with
  | none => exact h
  | some t1 =>
      dsimp only
      cases ha : topicToAddress t1 with
      | none => exact h
      | some owner0 =>
          dsimp only
          cases hd : log.dataStr with
          | none => exact h
          | some uri =>
              dsimp only
              split
              · cases h6 : hasEsip6Rule uri with
                | true =>
                    simp only [Bool.not_true, Bool.false_and, Bool.false_eq_true,
                      if_false, if_true]
                    exact TokensWF_insertMatch _ _ _ _ _ _ _ _ h
                | false =>
                    simp only [Bool.not_false, Bool.true_and, Bool.false_eq_true, if_false]
                    split
                    · exact h
                    · exact TokensWF_insertMatch _ _ _ _ _ _ _ _ h
              · exact h

theorem TokensWF_createTx (parse : String → Option ProtoJson) (inflate : String → Option String)
    (s : Store) (content fromA txh : String) (bn : Nat) (ts : String) (h : TokensWF s) :
    TokensWF (processCreateTx parse inflate s content fromA txh bn ts) := by
  unfold processCreateTx
  cases h6 : hasEsip6Rule content with
  | true =>
      simp only [Bool.not_true, Bool.false_and, Bool.false_eq_true, if_false, if_true]
      exact TokensWF_insertMatch _ _ _ _ _ _ _ _ h
  | false =>
      simp only [Bool.not_false, Bool.true_and, Bool.false_eq_true, if_false]
      split
      · exact h
      · exact TokensWF_insertMatch _ _ _ _ _ _ _ _ h

theorem TokensWF_processTx (parse : String → Option ProtoJson) (inflate : String → Option String)
    (s : Store) (bn : Nat) (ts : String) (tx : EvmTx) (h : TokensWF s) :
    TokensWF (processTx parse inflate s bn ts tx) := by
  unfold processTx
  repeat' (((try dsimp only []); split) <;> (try exact h))
  all_goals first
    | exact TokensWF_createTx _ _ _ _ _ _ _ _ h
    | exact foldl_preserves TokensWF _
        (fun a b ha => TokensWF_esip5Hash _ _ _ _ _ _ _ ha) _ _ h

theorem TokensWF_processLog (parse : String → Option ProtoJson) (inflate : String → Option String)
    (s : Store) (bn : Nat) (ts : String) (log : EvmLog) (h : TokensWF s) :
    TokensWF (processLog parse inflate s bn ts log) := by
  unfold processLog
  repeat' (((try dsimp only []); split) <;> (try exact h))
  all_goals first
    | exact TokensWF_esip1 _ _ _ _ h
    | exact TokensWF_esip2 _ _ _ _ h
    | exact TokensWF_esip3 _ _ _ _ _ _ h

theorem TokensWF_processBlock (parse : String → Option ProtoJson)
    (inflate : String → Option String) (s : Store) (bn : Nat) (b : EvmBlock)
    (h : TokensWF s) : TokensWF (processBlock parse inflate s bn b) := by
  unfold processBlock
  refine foldl_preserves TokensWF _ (fun a l ha => TokensWF_processLog _ _ _ _ _ _ ha) _ _ ?_
  exact foldl_preserves TokensWF _ (fun a tx ha => TokensWF_processTx _ _ _ _ _ _ ha) _ _ h

theorem TokensWF_emptyStore : TokensWF emptyStore := by
  refine ⟨?_, ?_, ?_⟩ <;> simp [emptyStore]

theorem reachable_TokensWF (parse : String → Option ProtoJson)
    (inflate : String → Option String) (s : Store) (h : Reachable parse inflate s) :
    TokensWF s := by
  induction h with
  | empty => exact TokensWF_emptyStore
  | step bn b _ ih => exact TokensWF_processBlock _ _ _ _ _ ih

/-- C7: in every reachable store, for every fixed-denomination token the sum
of the amounts of its notes equals its `minted` counter (mints insert a note
and bump `minted` by the same amount; transfers only rewrite note ownership). -/
theorem token_supply_invariant (parse : String → Option ProtoJson)
    (inflate : String → Option String) (s : Store) (h : Reachable parse inflate s) :
    ∀ t ∈ s.tokens, tickNotesSum s.tokenNotes t.tick = t.minted :=
  (reachable_TokensWF parse inflate s h).2.2

/-- A deploy of `bsct` (max 1000, lim 100). -/
def deployJson : ProtoJson :=
  { emptyJson with
    p := some "erc-20-fixed-denomination"
    op := some "deploy"
    tick := some "bsct"
    max := some 1000
    lim := some 100 }

/-- A parse oracle recognizing the two payloads of the witness block. -/
def protoParse : String → Option ProtoJson := fun c =>
  if c == "data:,D" then some deployJson
  else if c == "data:,M" then some mintNoAmtJson
  else none

/-- The deploy inscription's transaction (`data:,D`). -/
def deployTx : EvmTx :=
  { hash := "0xtd", txFrom := "0xaa", txTo := some "0xaa", txData := "0x646174613a2c44" }

/-- The mint inscription's transaction (`data:,M`). -/
def mintTx : EvmTx :=
  { hash := "0xtm", txFrom := "0xaa", txTo := some "0xaa", txData := "0x646174613a2c4d" }

/-- A block deploying `bsct` and then minting one note. -/
def tokenBlock : EvmBlock := { timestampIso := "T", txs := [deployTx, mintTx], logs := [] }

/-- The (reachable) store after `tokenBlock`. -/
def tokenRunStore : Store := processBlock protoParse nullInflate emptyStore 100 tokenBlock

set_option maxRecDepth 8000 in
/-- C7 witnessed on a store with a real deploy and mint: the sums match, and
the store is non-trivial (`minted = 100`, one note). -/
theorem token_supply_invariant_witness :
    (∀ t ∈ tokenRunStore.tokens, tickNotesSum tokenRunStore.tokenNotes t.tick = t.minted) ∧
    tokenRunStore.tokens.map (fun t => t.minted) = [100] ∧
    tokenRunStore.tokenNotes.map (fun n => (n.tick, n.noteId, n.amount, n.owner)) =
      [("bsct", 1, 100, "0xaa")] :=
  ⟨token_supply_invariant protoParse nullInflate tokenRunStore
     (Reachable.step 100 tokenBlock Reachable.empty),
   by decide, by decide⟩

/-! ## C10: lowercase address invariant -/

theorem toNat_ofNat_valid (n : Nat) (h1 : n < 55296) : (Char.ofNat n).toNat = n := by
  unfold Char.ofNat
  rw [dif_pos (Or.inl h1)]
  simp [Char.ofNatAux, Char.toNat, UInt32.toNat, UInt32.ofNatCore]

theorem jsLowerChar_not_upper (c : Char) :
    ¬(65 ≤ (jsLowerChar c).toNat ∧ (jsLowerChar c).toNat ≤ 90) := by
  unfold jsLowerChar
  split
  · rename_i hc
    simp only [Bool.and_eq_true, decide_eq_true_eq] at hc
    rw [toNat_ofNat_valid _ (by omega)]
    omega
  · rename_i hc
    simp only [Bool.and_eq_true, decide_eq_true_eq] at hc
    intro hcon
    exact hc ⟨by omega, by omega⟩

theorem NoUpper_jsToLower (x : String) : NoUpper (jsToLower x) := by
  intro c hc
  obtain ⟨c0, _, rfl⟩ := List.mem_map.mp hc
  exact jsLowerChar_not_upper c0

theorem NoUpper_topicToAddress (t a : String) (h : topicToAddress t = some a) :
    NoUpper a := by
  unfold topicToAddress at h
  dsimp only at h
  split at h
  · exact (Option.some_injective _ h) ▸ NoUpper_jsToLower _
  · exact absurd h (by simp)

/-- `AddrInv` transported along equal address-bearing tables. -/
theorem AddrInv_of_frames {s s' : Store} (h1 : s'.ethscriptions = s.ethscriptions)
    (h2 : s'.transfers = s.transfers) (h3 : s'.tokenNotes = s.tokenNotes)
    (h4 : s'.bondingNotes = s.bondingNotes) (h5 : s'.collections = s.collections)
    (h : AddrInv s) : AddrInv s' := by
  unfold AddrInv at h ⊢
  rw [h1, h2, h3, h4, h5]
  exact h

theorem addCollectionItem_collections (s : Store) (cid : String) (it : ItemFields)
    (eid txh : String) (bn : Nat) :
    (addCollectionItem s cid it eid txh bn).collections = s.collections := by
  unfold addCollectionItem
  repeat' (((try dsimp only []); split) <;> (try rfl))

theorem AddrInv_addCollectionItem (s : Store) (cid : String) (it : ItemFields)
    (eid txh : String) (bn : Nat) (h : AddrInv s) :
    AddrInv (addCollectionItem s cid it eid txh bn) :=
  AddrInv_of_frames (addCollectionItem_eths _ _ _ _ _ _)
    (addCollectionItem_frames _ _ _ _ _ _).2.2.2.2
    (addCollectionItem_frames _ _ _ _ _ _).2.1
    (addCollectionItem_frames _ _ _ _ _ _).2.2.2.1
    (addCollectionItem_collections _ _ _ _ _ _) h

theorem AddrInv_appendCollection (s : Store) (col : Collection)
    (h : AddrInv s) (hco : NoUpper col.owner) :
    AddrInv { s with collections := s.collections ++ [col] } := by
  obtain ⟨he, ht, hn, hb, hc⟩ := h
  refine ⟨he, ht, hn, hb, ?_⟩
  intro c hcm
  rcases List.mem_append.mp hcm with h' | h'
  · exact hc c h'
  · simp only [List.mem_singleton] at h'
    subst h'
    exact hco

theorem AddrInv_mapCollections (s : Store) (g : Collection → Collection)
    (hg : ∀ c, NoUpper c.owner → NoUpper (g c).owner) (h : AddrInv s) :
    AddrInv { s with collections := s.collections.map g } := by
  obtain ⟨he, ht, hn, hb, hc⟩ := h
  refine ⟨he, ht, hn, hb, ?_⟩
  intro c hcm
  obtain ⟨c0, hc0, rfl⟩ := List.mem_map.mp hcm
  exact hg c0 (hc c0 hc0)

theorem AddrInv_collectionOp (j : ProtoJson) (eid owner txh : String) (bn : Nat)
    (s : Store) (howner : NoUpper owner) (h : AddrInv s) :
    AddrInv (processCollectionOperation j eid owner txh bn s) := by
  unfold processCollectionOperation
  dsimp only
  repeat' ((split) <;> (try exact h))
  all_goals first
    | exact AddrInv_appendCollection _ _ h howner
    | exact AddrInv_addCollectionItem _ _ _ _ _ _
        (AddrInv_appendCollection _ _ h howner)
    | exact AddrInv_addCollectionItem _ _ _ _ _ _ h
    | exact AddrInv_mapCollections _ _
        (fun c hcown => by
          split
          · first
            | exact NoUpper_jsToLower _
            | exact hcown
          · exact hcown) h

theorem AddrInv_tokenOp (j : ProtoJson) (eid owner txh : String) (bn : Nat)
    (s : Store) (howner : NoUpper owner) (h : AddrInv s) :
    AddrInv (processTokenOperation j eid owner txh bn s) := by
  obtain ⟨he, ht, hn, hb, hc⟩ := h
  unfold processTokenOperation
  dsimp only
  repeat' ((split) <;> (try exact ⟨he, ht, hn, hb, hc⟩))
  all_goals refine ⟨he, ht, ?_, hb, hc⟩
  all_goals intro n hnm
  all_goals rcases List.mem_append.mp hnm with h' | h'
  all_goals first
    | exact hn n h'
    | (simp only [List.mem_singleton] at h'; subst h'; exact howner)

theorem AddrInv_bondingOp (j : ProtoJson) (eid owner txh : String) (bn : Nat)
    (s : Store) (howner : NoUpper owner) (h : AddrInv s) :
    AddrInv (processBondingCurveOperation j eid owner txh bn s) := by
  obtain ⟨he, ht, hn, hb, hc⟩ := h
  unfold processBondingCurveOperation
  dsimp only
  repeat' ((split) <;> (try exact ⟨he, ht, hn, hb, hc⟩))
  all_goals refine ⟨he, ht, hn, ?_, hc⟩
  all_goals intro n hnm
  all_goals rcases List.mem_append.mp hnm with h' | h'
  all_goals first
    | exact hb n h'
    | (simp only [List.mem_singleton] at h'; subst h'; exact howner)

theorem AddrInv_handlers (parse : String → Option ProtoJson) (s : Store)
    (content eid owner txh : String) (bn : Nat) (howner : NoUpper owner)
    (h : AddrInv s) : AddrInv (processProtocolHandlers parse s content eid owner txh bn) := by
  unfold processProtocolHandlers
  repeat' (((try dsimp only []); split) <;> (try exact h))
  all_goals first
    | exact AddrInv_collectionOp _ _ _ _ _ _ howner h
    | exact AddrInv_tokenOp _ _ _ _ _ _ howner h
    | exact AddrInv_bondingOp _ _ _ _ _ _ howner h

/-- Applying a validated transfer (owner update, row append, note sync)
keeps every address column lowercase. -/
theorem AddrInv_transferApply (s : Store) (id newOwner : String) (r : TransferRow)
    (hto : NoUpper newOwner) (hrf : NoUpper r.fromAddress) (hrt : NoUpper r.toAddress)
    (h : AddrInv s) :
    AddrInv (syncTokenNoteOwnership
      { updateOwner s id newOwner with
        transfers := (updateOwner s id newOwner).transfers ++ [r] } id newOwner) := by
  obtain ⟨he, ht, hn, hb, hc⟩ := h
  refine ⟨?_, ?_, ?_, ?_, hc⟩
  · intro e hem
    obtain ⟨e0, he0, rfl⟩ := List.mem_map.mp hem
    constructor
    · show NoUpper (if (e0.id == id) = true then { e0 with currentOwner := newOwner } else e0).creator
      split <;> exact (he e0 he0).1
    · show NoUpper (if (e0.id == id) = true then { e0 with currentOwner := newOwner } else e0).currentOwner
      split
      · exact hto
      · exact (he e0 he0).2
  · intro t htm
    rcases List.mem_append.mp htm with h' | h'
    · exact ht t h'
    · simp only [List.mem_singleton] at h'
      subst h'
      exact ⟨hrf, hrt⟩
  · intro n hnm
    obtain ⟨n0, hn0, rfl⟩ := List.mem_map.mp hnm
    show NoUpper (if (n0.ethscriptionId == id) = true then { n0 with owner := newOwner } else n0).owner
    split
    · exact hto
    · exact hn n0 hn0
  · intro n hnm
    obtain ⟨n0, hn0, rfl⟩ := List.mem_map.mp hnm
    show NoUpper (if (n0.ethscriptionId == id) = true then { n0 with owner := newOwner } else n0).owner
    split
    · exact hto
    · exact hb n0 hn0

theorem AddrInv_esip1 (s : Store) (log : EvmLog) (bn : Nat) (ts : String)
    (h : AddrInv s) : AddrInv (processEsip1Transfer s log bn ts) := by
  unfold processEsip1Transfer
  cases hg1 : log.topics.get? 1 with
  | none => exact h
  | some t1 =>
      cases hg2 : log.topics.get? 2 with
      | none => exact h
      | some t2 =>
          dsimp only
          cases ha : topicToAddress t1 with
          | none => exact h
          | some recipient =>
              dsimp only
              cases hf : s.ethscriptions.find? (fun e => e.id == jsToLower t2) with
              | none => exact h
              | some insc =>
                  dsimp only
                  exact AddrInv_transferApply s (jsToLower t2) recipient _
                    (NoUpper_topicToAddress _ _ ha)
                    ((h.1 insc (List.mem_of_find?_eq_some hf)).2)
                    (NoUpper_topicToAddress _ _ ha) h

theorem AddrInv_esip2 (s : Store) (log : EvmLog) (bn : Nat) (ts : String)
    (h : AddrInv s) : AddrInv (processEsip2Transfer s log bn ts) := by
  unfold processEsip2Transfer
  cases hg1 : log.topics.get? 1 with
  | none => exact h
  | some t1 =>
      cases hg2 : log.topics.get? 2 with
      | none => exact h
      | some t2 =>
          cases hg3 : log.topics.get? 3 with
          | none => exact h
          | some t3 =>
              dsimp only
              cases ha1 : topicToAddress t1 with
              | none => exact h
              | some previousOwner =>
                  cases ha2 : topicToAddress t2 with
                  | none => exact h
                  | some recipient =>
                      dsimp only
                      cases hf : s.ethscriptions.find? (fun e => e.id == jsToLower t3) with
                      | none => exact h
                      | some insc =>
                          dsimp only
                          split
                          · exact AddrInv_transferApply s (jsToLower t3) recipient _
                              (NoUpper_topicToAddress _ _ ha2)
                              (NoUpper_topicToAddress _ _ ha1)
                              (NoUpper_topicToAddress _ _ ha2) h
                          · exact h

theorem AddrInv_esip5Hash (s : Store) (hash fromA toA txh : String) (bn : Nat)
    (ts : String) (hfrom : NoUpper fromA) (hto : NoUpper toA) (h : AddrInv s) :
    AddrInv (processEsip5Hash s hash fromA toA txh bn ts) := by
  unfold processEsip5Hash
  cases hf : s.ethscriptions.find? (fun e => e.id == hash && e.currentOwner == fromA) with
  | none => exact h
  | some insc =>
      dsimp only
      exact AddrInv_transferApply s hash toA _ hto hfrom hto h

theorem AddrInv_insertMatch (parse : String → Option ProtoJson) (s : Store)
    (row : Inscription) (content eid owner txh : String) (bn : Nat)
    (hcr : NoUpper row.creator) (hco : NoUpper row.currentOwner)
    (howner : NoUpper owner) (h : AddrInv s) :
    AddrInv (match insertInscription s row with
      | none => s
      | some s1 => processProtocolHandlers parse s1 content eid owner txh bn) := by
  cases hins : insertInscription s row with
  | none => exact h
  | some s1 =>
      have hs1 := insertInscription_some _ _ _ hins
      subst hs1
      refine AddrInv_handlers _ _ _ _ _ _ _ howner ?_
      obtain ⟨he, ht, hn, hb, hc⟩ := h
      refine ⟨?_, ht, hn, hb, hc⟩
      intro e hem
      rcases List.mem_append.mp hem with h' | h'
      · exact he e h'
      · simp only [List.mem_singleton] at h'
        subst h'
        exact ⟨hcr, hco⟩

theorem AddrInv_createTx (parse : String → Option ProtoJson) (inflate : String → Option String)
    (s : Store) (content fromA txh : String) (bn : Nat) (ts : String)
    (hfrom : NoUpper fromA) (h : AddrInv s) :
    AddrInv (processCreateTx parse inflate s content fromA txh bn ts) := by
  unfold processCreateTx
  cases h6 : hasEsip6Rule content with
  | true =>
      simp only [Bool.not_true, Bool.false_and, Bool.false_eq_true, if_false, if_true]
      exact AddrInv_insertMatch _ _ _ _ _ _ _ _ hfrom hfrom hfrom h
  | false =>
      simp only [Bool.not_false, Bool.true_and, Bool.false_eq_true, if_false]
      split
      · exact h
      · exact AddrInv_insertMatch _ _ _ _ _ _ _ _ hfrom hfrom hfrom h

theorem AddrInv_esip3 (parse : String → Option ProtoJson) (inflate : String → Option String)
    (s : Store) (log : EvmLog) (bn : Nat) (ts : String) (h : AddrInv s) :
    AddrInv (processEsip3Creation parse inflate s log bn ts) := by
  unfold processEsip3Creation
  cases hg1 : log.topics.get? 1 with
  | none => exact h
  | some t1 =>
      dsimp only
      cases ha : topicToAddress t1 with
      | none => exact h
      | some owner0 =>
          dsimp only
          cases hd : log.dataStr with
          | none => exact h
          | some uri =>
              dsimp only
              split
              · cases h6 : hasEsip6Rule uri with
                | true =>
                    simp only [Bool.not_true, Bool.false_and, Bool.false_eq_true,
                      if_false, if_true]
                    exact AddrInv_insertMatch _ _ _ _ _ _ _ _
                      (NoUpper_jsToLower _) (NoUpper_topicToAddress _ _ ha)
                      (NoUpper_topicToAddress _ _ ha) h
                | false =>
                    simp only [Bool.not_false, Bool.true_and, Bool.false_eq_true, if_false]
                    split
                    · exact h
                    · exact AddrInv_insertMatch _ _ _ _ _ _ _ _
                        (NoUpper_jsToLower _) (NoUpper_topicToAddress _ _ ha)
                        (NoUpper_topicToAddress _ _ ha) h
              · exact h

theorem AddrInv_processTx (parse : String → Option ProtoJson) (inflate : String → Option String)
    (s : Store) (bn : Nat) (ts : String) (tx : EvmTx) (h : AddrInv s) :
    AddrInv (processTx parse inflate s bn ts tx) := by
  unfold processTx
  repeat' (((try dsimp only []); split) <;> (try exact h))
  all_goals first
    | exact AddrInv_createTx _ _ _ _ _ _ _ _ (NoUpper_jsToLower _) h
    | exact foldl_preserves AddrInv _
        (fun a b ha => AddrInv_esip5Hash _ _ _ _ _ _ _
          (NoUpper_jsToLower _) (NoUpper_jsToLower _) ha) _ _ h

theorem AddrInv_processLog (parse : String → Option ProtoJson) (inflate : String → Option String)
    (s : Store) (bn : Nat) (ts : String) (log : EvmLog) (h : AddrInv s) :
    AddrInv (processLog parse inflate s bn ts log) := by
  unfold processLog
  repeat' (((try dsimp only []); split) <;> (try exact h))
  all_goals first
    | exact AddrInv_esip1 _ _ _ _ h
    | exact AddrInv_esip2 _ _ _ _ h
    | exact AddrInv_esip3 _ _ _ _ _ _ h

theorem AddrInv_processBlock (parse : String → Option ProtoJson)
    (inflate : String → Option String) (s : Store) (bn : Nat) (b : EvmBlock)
    (h : AddrInv s) : AddrInv (processBlock parse inflate s bn b) := by
  unfold processBlock
  refine foldl_preserves AddrInv _ (fun a l ha => AddrInv_processLog _ _ _ _ _ _ ha) _ _ ?_
  exact foldl_preserves AddrInv _ (fun a tx ha => AddrInv_processTx _ _ _ _ _ _ ha) _ _ h

theorem AddrInv_emptyStore : AddrInv emptyStore := by
  refine ⟨?_, ?_, ?_, ?_, ?_⟩ <;> simp [emptyStore]

theorem reachable_AddrInv (parse : String → Option ProtoJson)
    (inflate : String → Option String) (s : Store) (h : Reachable parse inflate s) :
    AddrInv s := by
  induction h with
  | empty => exact AddrInv_emptyStore
  | step bn b _ ih => exact AddrInv_processBlock _ _ _ _ _ ih

/-- C10: in every reachable store, every address column written by any
operation — inscription creator and current owner, transfer from/to
addresses, token-note and bonding-note owners, and collection owners — is in
lowercase form (no ASCII uppercase; the source lowercases every address it
writes but never validates hex-ness, which is inherited from the chain data). -/
theorem addresses_lowercase (parse : String → Option ProtoJson)
    (inflate : String → Option String) (s : Store) (h : Reachable parse inflate s) :
    AddrInv s :=
  reachable_AddrInv parse inflate s h

set_option maxRecDepth 8000 in
/-- C10 witnessed on the reachable store holding the `data:,hello`
inscription and its ESIP-1 transfer (the log decodes a mixed-case topic). -/
theorem addresses_lowercase_witness :
    AddrInv esip1Store ∧
    esip1Store.ethscriptions.map (fun e => e.currentOwner) =
      ["0xbbbbbbbbbbbbbbbbbbbbbbbbbbbbbbbbbbbbbbbb"] :=
  ⟨addresses_lowercase nullParse nullInflate esip1Store
     (Reachable.step 101 esip1Block (Reachable.step 100 helloBlock Reachable.empty)),
   by decide⟩

/-! ## C8: is block application sequential? -/

theorem flatten_of_all_nil {α : Type} (ls : List (List α)) (h : ∀ l ∈ ls, l = []) :
    ls.flatten = [] := by
  induction ls with
  | nil => rfl
  | cons a as ih =>
      rw [List.flatten_cons, h a (List.mem_cons_self a as), List.nil_append]
      exact ih (fun l hl => h l (List.mem_cons_of_mem a hl))

theorem lt_length_of_get?_some {α : Type} :
    ∀ (l : List α) (i : Nat) (a : α), l.get? i = some a → i < l.length := by
  intro l
  induction l with
  | nil => intro i a h; simp at h
  | cons x xs ih =>
      intro i a h
      cases i with
      | zero => simp
      | succ i' =>
          simp only [List.get?_cons_succ] at h
          have := ih i' a h
          simp only [List.length_cons]
          omega

theorem get?_set_self {α : Type} :
    ∀ (l : List α) (i : Nat) (a : α), i < l.length → (l.set i a).get? i = some a := by
  intro l
  induction l with
  | nil => intro i a h; simp at h
  | cons x xs ih =>
      intro i a h
      cases i with
      | zero => rfl
      | succ i' =>
          show (xs.set i' a).get? i' = some a
          exact ih i' a (by simp only [List.length_cons] at h; omega)

theorem get?_set_other {α : Type} :
    ∀ (l : List α) (i j : Nat) (a : α), i ≠ j → (l.set j a).get? i = l.get? i := by
  intro l
  induction l with
  | nil => intro i j a _; rfl
  | cons x xs ih =>
      intro i j a hne
      cases j with
      | zero =>
          cases i with
          | zero => exact absurd rfl hne
          | succ i' => rfl
      | succ j' =>
          cases i with
          | zero => rfl
          | succ i' =>
              show (xs.set j' a).get? i' = xs.get? i'
              exact ih i' j' a (fun h => hne (by rw [h]))

theorem flatten_set_perm {α : Type} (ls : List (List α)) :
    ∀ (i : Nat) (x : α) (l : List α), ls.get? i = some (x :: l) →
      ls.flatten.Perm (x :: (ls.set i l).flatten) := by
  induction ls with
  | nil => intro i x l h; simp at h
  | cons a as ih =>
      intro i x l h
      cases i with
      | zero =>
          simp only [List.get?_cons_zero, Option.some_inj] at h
          subst h
          simp only [List.set_cons_zero, List.flatten_cons, List.cons_append]
          exact List.Perm.refl _
      | succ i' =>
          simp only [List.get?_cons_succ] at h
          simp only [List.set_cons_succ, List.flatten_cons]
          refine ((ih i' x l h).append_left a).trans ?_
          exact List.perm_middle

theorem interleaving_perm {α : Type} {ls : List (List α)} {t : List α}
    (h : IsInterleaving ls t) : t.Perm ls.flatten := by
  induction h with
  | done hnil =>
      rw [flatten_of_all_nil _ hnil]
  | step i x l hget _ ih =>
      exact (ih.cons x).trans (flatten_set_perm _ i x l hget).symm

theorem interleaving_member_sublist {α : Type} {ls : List (List α)} {t : List α}
    (h : IsInterleaving ls t) : ∀ (i : Nat) (l : List α), ls.get? i = some l →
      l.Sublist t := by
  induction h with
  | done hnil =>
      intro i l hget
      rw [hnil l (List.get?_mem hget)]
  | step j x l0 hget _ ih =>
      intro i l hgi
      by_cases hij : i = j
      · subst hij
        rw [hgi] at hget
        injection hget with hget
        subst hget
        have hlen : i < _ := lt_length_of_get?_some _ i _ hgi
        have hsub := ih i l0 (get?_set_self _ i l0 hlen)
        exact hsub.cons₂ x
      · have hsub := ih i l (by rw [get?_set_other _ i j l0 hij]; exact hgi)
        exact hsub.cons x

theorem chunks5_flatten {α : Type} : ∀ (l : List α), (chunks5 l).flatten = l
  | a :: b :: c :: d :: e :: f :: rest => by
      show ([a, b, c, d, e] :: chunks5 (f :: rest)).flatten = _
      rw [List.flatten_cons, chunks5_flatten (f :: rest)]
      rfl
  | [] => rfl
  | [a] => rfl
  | [a, b] => rfl
  | [a, b, c] => rfl
  | [a, b, c, d] => rfl
  | [a, b, c, d, e] => rfl

theorem forall2_exists_right {α β : Type} {R : α → β → Prop} :
    ∀ {cs : List α} {parts : List β}, List.Forall₂ R cs parts →
      ∀ c ∈ cs, ∃ part ∈ parts, R c part := by
  intro cs parts h
  induction h with
  | nil => intro c hc; simp at hc
  | cons hr _ ih =>
      intro c hc
      rcases List.mem_cons.mp hc with rfl | hc2
      · exact ⟨_, List.mem_cons_self _ _, hr⟩
      · obtain ⟨p, hp, hrp⟩ := ih c hc2
        exact ⟨p, List.mem_cons_of_mem _ hp, hrp⟩

theorem sublist_flatten_of_mem {α : Type} {l : List α} {L : List (List α)}
    (h : l ∈ L) : l.Sublist L.flatten := by
  induction L with
  | nil => simp at h
  | cons a as ih =>
      rw [List.flatten_cons]
      rcases List.mem_cons.mp h with rfl | h2
      · exact List.sublist_append_left _ _
      · exact (ih h2).trans (List.sublist_append_right _ _)

theorem forall2_flatten_perm {cs : List (List (Nat × EvmBlock))}
    {parts : List (List ApplyEvent)}
    (h : List.Forall₂ (fun chunk part =>
      IsInterleaving (chunk.map (fun p => blockTrace p.1 p.2)) part) cs parts) :
    parts.flatten.Perm
      ((cs.map (fun c => (c.map (fun p => blockTrace p.1 p.2)).flatten)).flatten) := by
  induction h with
  | nil => rfl
  | cons hr _ ih =>
      simp only [List.flatten_cons, List.map_cons]
      exact (interleaving_perm hr).append ih

theorem flatten_chunk_map (cs : List (List (Nat × EvmBlock))) :
    ((cs.map (fun c => (c.map (fun p => blockTrace p.1 p.2)).flatten)).flatten) =
      ((cs.flatten.map (fun p => blockTrace p.1 p.2)).flatten) := by
  induction cs with
  | nil => rfl
  | cons a as ih =>
      simp only [List.map_cons, List.flatten_cons, List.map_append, List.flatten_append, ih]

/-- Two consecutive one-transaction blocks. -/
def c8blocks : List (Nat × EvmBlock) := [(100, helloBlock), (101, helloBlock)]

/-- A trace applying block 101's intent before block 100's. -/
def c8trace : List ApplyEvent := [⟨101, 0⟩, ⟨100, 0⟩]

/-- C8 counterexample: because `main` runs `Promise.all` over groups of 5
blocks (fetch **and** apply), the trace that applies block 101's intent
before block 100's is a possible trace for two consecutive blocks — the
application order is not the sequential one, refuting the claim that block N
is fully applied before any intent of block N+1. -/
theorem out_of_order_trace_possible :
    PossibleTrace c8blocks c8trace ∧ c8trace ≠ seqTrace c8blocks := by
  constructor
  · have hIs : IsInterleaving (c8blocks.map (fun p => blockTrace p.1 p.2)) c8trace := by
      have hls : c8blocks.map (fun p => blockTrace p.1 p.2) =
          [[⟨100, 0⟩], [⟨101, 0⟩]] := by decide
      rw [hls]
      show IsInterleaving [[(⟨100, 0⟩ : ApplyEvent)], [⟨101, 0⟩]] [⟨101, 0⟩, ⟨100, 0⟩]
      refine IsInterleaving.step 1 (⟨101, 0⟩ : ApplyEvent) [] rfl ?_
      refine IsInterleaving.step 0 (⟨100, 0⟩ : ApplyEvent) [] rfl ?_
      exact IsInterleaving.done (by decide)
    refine ⟨[c8trace], ?_, rfl⟩
    rw [show chunks5 c8blocks = [c8blocks] from rfl]
    exact List.Forall₂.cons hIs List.Forall₂.nil
  · decide

/-- C8 amended: only groups of `CONCURRENCY = 5` blocks are separated by a
barrier. Every possible application trace is a permutation of the sequential
trace (respecting chunk boundaries), and each individual block's intents stay
in their own order (its trace is a subsequence of the global trace) — but as
the counterexample shows, intents of different blocks inside one group of 5
may interleave arbitrarily, so per-block sequentiality does not hold. -/
theorem batch_apply_trace_semantics :
    (∀ (blocks : List (Nat × EvmBlock)) (t : List ApplyEvent),
      PossibleTrace blocks t → t.Perm (seqTrace blocks)) ∧
    (∀ (blocks : List (Nat × EvmBlock)) (t : List ApplyEvent),
      PossibleTrace blocks t → ∀ p ∈ blocks, (blockTrace p.1 p.2).Sublist t) := by
  constructor
  · intro blocks t hP
    obtain ⟨parts, hf, ht⟩ := hP
    subst ht
    refine (forall2_flatten_perm hf).trans ?_
    rw [flatten_chunk_map, chunks5_flatten]
    exact List.Perm.refl _
  · intro blocks t hP
    obtain ⟨parts, hf, ht⟩ := hP
    subst ht
    intro p hp
    have hp2 : p ∈ (chunks5 blocks).flatten := by rw [chunks5_flatten]; exact hp
    obtain ⟨chunk, hchunk, hpc⟩ := List.mem_flatten.mp hp2
    obtain ⟨part, hpart, hint⟩ := forall2_exists_right hf chunk hchunk
    have hmem : blockTrace p.1 p.2 ∈ chunk.map (fun q => blockTrace q.1 q.2) :=
      List.mem_map_of_mem _ hpc
    obtain ⟨i, hi⟩ := List.get?_of_mem hmem
    exact ((interleaving_member_sublist hint i _ hi).trans
      (sublist_flatten_of_mem hpart))

end Basescriptions
